import Mathlib

/-!
Verification of the Position Consolidation & Market-Data Reconciliation
Engine of the `invest` server (src/server.js).

The JavaScript source is shallowly embedded:
* JS numbers are idealised as `JNum`: exact rationals plus the special
  values `NaN`, `Infinity` and `-Infinity` (the sign of zero is not
  modelled, nor is binary floating-point rounding).
* JSON field values that may be non-numeric are embedded as `JVal`
  (number, string, `null` or `undefined`; booleans and objects never
  occur in the numeric fields the engine reads).
* `parseFloat` and the implicit `ToNumber` coercion of arithmetic are
  implemented over these domains following the ECMAScript grammar for
  decimal literals (hexadecimal `ToNumber` literals are not modelled,
  they never occur in this system's data).
* Stateful code is embedded by explicit state passing; the insertion
  ordered JS `Map` becomes an association list.
-/

attribute [local semireducible] Rat.add Rat.mul Rat.inv Rat.sub

namespace Invest

/-- Idealised JavaScript number: NaN, the two infinities, or an exact
rational (binary rounding of IEEE doubles is not modelled). -/
inductive JNum where
  | nan
  | inf
  | ninf
  | fin (q : ℚ)
deriving DecidableEq, Repr

namespace JNum

/-- JS `Number.isNaN` / the `isNaN` test used by `safeNumber`. -/
def isNaN : JNum → Bool
  | nan => true
  | _ => false

/-- Finiteness predicate (`Number.isFinite`). -/
def isFinite : JNum → Bool
  | fin _ => true
  | _ => false

/-- JS truthiness of a number: `0` and `NaN` are falsy. -/
def truthy : JNum → Bool
  | nan => false
  | fin q => decide (q ≠ 0)
  | _ => true

/-- JS unary minus. -/
def jneg : JNum → JNum
  | nan => nan
  | inf => ninf
  | ninf => inf
  | fin q => fin (-q)

/-- JS addition. -/
def jadd : JNum → JNum → JNum
  | nan, _ => nan
  | _, nan => nan
  | inf, ninf => nan
  | ninf, inf => nan
  | inf, _ => inf
  | _, inf => inf
  | ninf, _ => ninf
  | _, ninf => ninf
  | fin a, fin b => fin (a + b)

/-- JS subtraction (`a - b = a + (-b)`). -/
def jsub (a b : JNum) : JNum := jadd a (jneg b)

/-- JS multiplication. -/
def jmul : JNum → JNum → JNum
  | nan, _ => nan
  | _, nan => nan
  | inf, inf => inf
  | inf, ninf => ninf
  | ninf, inf => ninf
  | ninf, ninf => inf
  | inf, fin q => if 0 < q then inf else if q < 0 then ninf else nan
  | fin q, inf => if 0 < q then inf else if q < 0 then ninf else nan
  | ninf, fin q => if 0 < q then ninf else if q < 0 then inf else nan
  | fin q, ninf => if 0 < q then ninf else if q < 0 then inf else nan
  | fin a, fin b => fin (a * b)

/-- JS division (a signed zero is not modelled, so `x / 0` takes the
positive-zero behaviour). -/
def jdiv : JNum → JNum → JNum
  | nan, _ => nan
  | _, nan => nan
  | inf, inf => nan
  | inf, ninf => nan
  | ninf, inf => nan
  | ninf, ninf => nan
  | inf, fin q => if q < 0 then ninf else inf
  | ninf, fin q => if q < 0 then inf else ninf
  | fin _, inf => fin 0
  | fin _, ninf => fin 0
  | fin a, fin b =>
      if b = 0 then (if a = 0 then nan else if 0 < a then inf else ninf)
      else fin (a / b)

/-- JS `a > b` comparison (false whenever NaN is involved). -/
def jgt : JNum → JNum → Bool
  | nan, _ => false
  | _, nan => false
  | inf, inf => false
  | inf, _ => true
  | ninf, _ => false
  | fin _, inf => false
  | fin _, ninf => true
  | fin a, fin b => decide (b < a)

/-- The rational value of a finite `JNum` (0 for the special values);
used only to state theorems about the finite fragment. -/
def toRat : JNum → ℚ
  | fin q => q
  | _ => 0

/-- Rounding to 2 decimal places, half away from zero: the numeric value
of JS `x.toFixed(2)`. -/
def round2 (q : ℚ) : ℚ :=
  if q < 0 then -((⌊-q * 100 + 1/2⌋ : ℤ) : ℚ) / 100
  else ((⌊q * 100 + 1/2⌋ : ℤ) : ℚ) / 100

/-- Numeric value of `x.toFixed(2)` (and hence of
`parseFloat(x.toFixed(2))`): `NaN`, `Infinity` and `-Infinity` format to
strings that read back as themselves. -/
def jToFixed2 : JNum → JNum
  | nan => nan
  | inf => inf
  | ninf => ninf
  | fin q => fin (round2 q)

end JNum

/-- A JSON / JS field value as the engine may encounter it. -/
inductive JVal where
  | num (n : JNum)
  | str (s : String)
  | null
  | undef
deriving DecidableEq, Repr

/-! ### The `parseFloat` and `ToNumber` models -/

/-- Whitespace skipped by `parseFloat` / `ToNumber`. -/
def isWs (c : Char) : Bool :=
  c = ' ' || c = '\t' || c = '\n' || c = '\r' || c = '\x0b' || c = '\x0c'

/-- Numeric value of a list of decimal digit characters. -/
def digitsVal (ds : List Char) : ℕ :=
  ds.foldl (fun a c => 10 * a + (c.toNat - 48)) 0

/-- Parse the longest unsigned decimal literal
(`digits [. digits] [e [sign] digits]`) at the head of the character
list, returning its exact rational value and the unconsumed rest;
`none` when no digit is present. -/
def parseUnsignedDec (cs : List Char) : Option (ℚ × List Char) :=
  let ip := cs.takeWhile Char.isDigit
  let r1 := cs.dropWhile Char.isDigit
  let fr : List Char × List Char :=
    match r1 with
    | '.' :: rest => (rest.takeWhile Char.isDigit, rest.dropWhile Char.isDigit)
    | _ => ([], r1)
  let fp := fr.1
  let r2 := fr.2
  if ip.isEmpty && fp.isEmpty then none
  else
    let base : ℚ := (digitsVal ip : ℚ) + (digitsVal fp : ℚ) / (10 : ℚ) ^ fp.length
    match r2 with
    | e :: rest =>
        if e = 'e' || e = 'E' then
          let sg : ℤ × List Char :=
            match rest with
            | '+' :: t => (1, t)
            | '-' :: t => (-1, t)
            | _ => (1, rest)
          let ed := sg.2.takeWhile Char.isDigit
          if ed.isEmpty then some (base, r2)
          else some (base * (10 : ℚ) ^ (sg.1 * (digitsVal ed : ℤ)), sg.2.dropWhile Char.isDigit)
        else some (base, r2)
    | [] => some (base, [])

/-- JS `parseFloat` on a string: skip leading whitespace, optional sign,
then the longest `Infinity` or decimal-literal prefix; `NaN` when none. -/
def jsParseFloat (s : String) : JNum :=
  let cs := s.toList.dropWhile isWs
  let sg : Bool × List Char :=
    match cs with
    | '+' :: t => (false, t)
    | '-' :: t => (true, t)
    | _ => (false, cs)
  if sg.2.take 8 = "Infinity".toList then (if sg.1 then .ninf else .inf)
  else
    match parseUnsignedDec sg.2 with
    | some (q, _) => .fin (if sg.1 then -q else q)
    | none => .nan

/-- JS `ToNumber` on a string: the whole trimmed string must be a
numeric literal; the empty string is 0 (hexadecimal literals are not
modelled). -/
def jsStrToNumber (s : String) : JNum :=
  let cs := (s.toList.dropWhile isWs).reverse.dropWhile isWs |>.reverse
  if cs.isEmpty then .fin 0
  else
    let sg : Bool × List Char :=
      match cs with
      | '+' :: t => (false, t)
      | '-' :: t => (true, t)
      | _ => (false, cs)
    if sg.2 = "Infinity".toList then (if sg.1 then .ninf else .inf)
    else
      match parseUnsignedDec sg.2 with
      | some (q, []) => .fin (if sg.1 then -q else q)
      | _ => .nan

/-- `parseFloat(value)`: numbers round-trip through their string form
(`parseFloat(String(n)) = n` in this idealisation), `null` and
`undefined` stringify to non-numeric text. -/
def parseFloatVal : JVal → JNum
  | .num n => n
  | .str s => jsParseFloat s
  | .null => .nan
  | .undef => .nan

/-- The implicit `ToNumber` coercion applied by JS arithmetic operators. -/
def toNumber : JVal → JNum
  | .num n => n
  | .str s => jsStrToNumber s
  | .null => .fin 0
  | .undef => .nan

/-- src/server.js lines 15-18: `safeNumber(value, defaultValue)` returns
`parseFloat(value)` unless that is NaN, in which case the default is
returned verbatim. -/
def safeNumber (value defaultValue : JVal) : JVal :=
  if (parseFloatVal value).isNaN then defaultValue else .num (parseFloatVal value)

/-- `safeNumber` specialised to an in-memory numeric default, which is
how every call in `consolidatePortfolio` uses it: the result is always
a number. -/
def sfN (value : JVal) (d : JNum) : JNum :=
  if (parseFloatVal value).isNaN then d else parseFloatVal value

/-- `safeNumber(x)` with the implicit default `0`. -/
def sfN0 (value : JVal) : JNum := sfN value (.fin 0)

/-- `safeNumber(n)` applied to a value that is already a number in
memory (e.g. `safeNumber(existing.quantity)`): `parseFloat` round-trips
every number except NaN, which falls back to the default `0`. -/
def renorm (n : JNum) : JNum :=
  if n.isNaN then .fin 0 else n

/-! ### Data model (§3 of the spec, shapes taken from src/server.js) -/

/-- JS truthiness of an optional string field (`undefined` and `""` are
falsy). -/
def strTruthy : Option String → Bool
  | some s => !s.isEmpty
  | none => false

/-- JS `a || b` on optional string fields. -/
def orStr (a b : Option String) : Option String :=
  if strTruthy a then a else b

/-- A raw stock holding as stored in `portfolio.json`. -/
structure RawStock where
  id : String
  symbol : String
  originalSymbol : Option String := none
  companyName : Option String := none
  exchange : Option String := none
  quantity : JVal
  purchasePrice : JVal
  purchaseDate : Option String := none
  currentPrice : JVal := .undef
  change : JVal := .undef
  changePercent : JVal := .undef
  totalValue : JVal := .undef
  totalGain : JVal := .undef
  gainPercent : JVal := .undef
  priceError : Option Bool := none
  lastUpdated : Option String := none
deriving DecidableEq, Repr

/-- A raw mutual-fund holding as stored in `portfolio.json`. -/
structure RawMF where
  id : String
  scheme : String
  schemeCode : Option String := none
  units : JVal
  purchaseNAV : JVal
  investedAmount : JVal
  purchaseDate : Option String := none
  currentNAV : JVal := .undef
  change : JVal := .undef
  changePercent : JVal := .undef
  totalValue : JVal := .undef
  totalGain : JVal := .undef
  gainPercent : JVal := .undef
  navDate : Option String := none
  navError : Option Bool := none
deriving DecidableEq, Repr

/-- The persisted portfolio aggregate. -/
structure Portfolio where
  stocks : List RawStock
  mutualFunds : List RawMF
  lastUpdated : Option String := none
deriving DecidableEq, Repr

/-- A per-transaction record of a consolidated stock position
(the object literal pushed at src/server.js lines 138-146 / 169-179). -/
structure StockTxn where
  id : String
  quantity : JNum
  purchasePrice : JNum
  purchaseDate : Option String
  totalValue : JNum
  totalGain : JNum
  gainPercent : JNum
deriving DecidableEq, Repr

/-- A consolidated stock position: the spread copy `{...stock, ...}`
built at src/server.js lines 156-180 and mutated in place by the merge
branch.  Fields not overridden by the object literal keep their raw
values from the originating holding. -/
structure StockPos where
  id : String
  symbol : String
  originalSymbol : Option String
  exchange : Option String
  purchaseDate : Option String
  priceError : Option Bool
  lastUpdated : Option String
  companyName : String
  quantity : JNum
  purchasePrice : JNum
  investedAmount : JNum
  currentPrice : JNum
  change : JNum
  changePercent : JNum
  totalValue : JNum
  totalGain : JNum
  gainPercent : JNum
  transactions : List StockTxn
deriving DecidableEq, Repr

/-- A per-transaction record of a consolidated fund position
(src/server.js lines 216-225 / 244-255). -/
structure MFTxn where
  id : String
  units : JNum
  purchaseNAV : JNum
  investedAmount : JNum
  purchaseDate : Option String
  totalValue : JNum
  totalGain : JNum
  gainPercent : JNum
deriving DecidableEq, Repr

/-- A consolidated mutual-fund position (src/server.js lines 233-256). -/
structure MFPos where
  id : String
  scheme : String
  schemeCode : Option String
  purchaseDate : Option String
  navDate : Option String
  navError : Option Bool
  units : JNum
  purchaseNAV : JNum
  investedAmount : JNum
  currentNAV : JNum
  change : JNum
  changePercent : JNum
  totalValue : JNum
  totalGain : JNum
  gainPercent : JNum
  transactions : List MFTxn
deriving DecidableEq, Repr

/-- Result of `consolidatePortfolio` (src/server.js lines 260-263). -/
structure ConsolidatedPortfolio where
  stocks : List StockPos
  mutualFunds : List MFPos
deriving DecidableEq, Repr

/-! ### The Consolidation Engine (src/server.js lines 90-264) -/

open JNum

/-- First-occurrence stock branch (src/server.js lines 147-180): the
spread copy with normalised numeric fields and a single transaction
valued at this holding's own current price. -/
def stockInit (stock : RawStock) : StockPos :=
  let txnCurrentValue := jmul (sfN0 stock.quantity) (sfN0 stock.currentPrice)
  let txnInvestedAmount := jmul (sfN0 stock.quantity) (sfN0 stock.purchasePrice)
  let txnGain := jsub txnCurrentValue txnInvestedAmount
  let txnGainPercent :=
    if jgt txnInvestedAmount (fin 0)
    then jmul (jdiv txnGain txnInvestedAmount) (fin 100) else fin 0
  { id := stock.id
    symbol := stock.symbol
    originalSymbol := stock.originalSymbol
    exchange := stock.exchange
    purchaseDate := stock.purchaseDate
    priceError := stock.priceError
    lastUpdated := stock.lastUpdated
    companyName :=
      (orStr stock.companyName (orStr stock.originalSymbol (some stock.symbol))).getD stock.symbol
    quantity := sfN0 stock.quantity
    purchasePrice := sfN0 stock.purchasePrice
    investedAmount := jmul (sfN0 stock.quantity) (sfN0 stock.purchasePrice)
    currentPrice := sfN0 stock.currentPrice
    totalValue := jmul (sfN0 stock.quantity) (sfN0 stock.currentPrice)
    totalGain := sfN0 stock.totalGain
    gainPercent := sfN0 stock.gainPercent
    change := sfN0 stock.change
    changePercent := sfN0 stock.changePercent
    transactions := [{
      id := stock.id
      quantity := sfN0 stock.quantity
      purchasePrice := sfN0 stock.purchasePrice
      purchaseDate := stock.purchaseDate
      totalValue := txnCurrentValue
      totalGain := txnGain
      gainPercent := txnGainPercent }] }

/-- Stock merge branch (src/server.js lines 96-146): weighted-average
cost basis recomputed from `existing.quantity * existing.purchasePrice`,
last-write-wins market fields, and a transaction valued at the
aggregate's (updated) current price. -/
def stockMerge (existing : StockPos) (stock : RawStock) : StockPos :=
  let totalQuantity := jadd (renorm existing.quantity) (sfN0 stock.quantity)
  let totalInvestment :=
    jadd (jmul (renorm existing.quantity) (renorm existing.purchasePrice))
         (jmul (sfN0 stock.quantity) (sfN0 stock.purchasePrice))
  let nameOk : Bool :=
    match stock.companyName with
    | some c => !c.isEmpty && c != stock.symbol && stock.originalSymbol != some c
    | none => false
  let currentPrice := sfN stock.currentPrice existing.currentPrice
  let totalValue := jmul totalQuantity (renorm currentPrice)
  let totalGain := jsub totalValue totalInvestment
  let txnCurrentValue := jmul (sfN0 stock.quantity) (renorm currentPrice)
  let txnInvestedAmount := jmul (sfN0 stock.quantity) (sfN0 stock.purchasePrice)
  let txnGain := jsub txnCurrentValue txnInvestedAmount
  let txnGainPercent :=
    if jgt txnInvestedAmount (fin 0)
    then jmul (jdiv txnGain txnInvestedAmount) (fin 100) else fin 0
  { existing with
    quantity := totalQuantity
    purchasePrice :=
      if jgt totalQuantity (fin 0) then jdiv totalInvestment totalQuantity else fin 0
    investedAmount := totalInvestment
    companyName :=
      if nameOk then (stock.companyName.getD existing.companyName) else existing.companyName
    currentPrice := currentPrice
    change := sfN stock.change existing.change
    changePercent := sfN stock.changePercent existing.changePercent
    totalValue := totalValue
    totalGain := totalGain
    gainPercent :=
      if jgt totalInvestment (fin 0)
      then jmul (jdiv totalGain totalInvestment) (fin 100) else fin 0
    transactions := existing.transactions ++ [{
      id := stock.id
      quantity := sfN0 stock.quantity
      purchasePrice := sfN0 stock.purchasePrice
      purchaseDate := stock.purchaseDate
      totalValue := txnCurrentValue
      totalGain := txnGain
      gainPercent := txnGainPercent }] }

/-- First-occurrence fund branch (src/server.js lines 226-257).  Note
`investedAmount` is the holding's own raw `investedAmount` field, not
`units * purchaseNAV`. -/
def mfInit (mf : RawMF) : MFPos :=
  let txnCurrentValue := jmul (sfN0 mf.units) (sfN0 mf.currentNAV)
  let txnInvestedAmount := sfN0 mf.investedAmount
  let txnGain := jsub txnCurrentValue txnInvestedAmount
  let txnGainPercent :=
    if jgt txnInvestedAmount (fin 0)
    then jmul (jdiv txnGain txnInvestedAmount) (fin 100) else fin 0
  { id := mf.id
    scheme := mf.scheme
    schemeCode := mf.schemeCode
    purchaseDate := mf.purchaseDate
    navDate := mf.navDate
    navError := mf.navError
    units := sfN0 mf.units
    purchaseNAV := sfN0 mf.purchaseNAV
    investedAmount := sfN0 mf.investedAmount
    currentNAV := sfN0 mf.currentNAV
    totalValue := jmul (sfN0 mf.units) (sfN0 mf.currentNAV)
    totalGain := sfN0 mf.totalGain
    gainPercent := sfN0 mf.gainPercent
    change := sfN0 mf.change
    changePercent := sfN0 mf.changePercent
    transactions := [{
      id := mf.id
      units := sfN0 mf.units
      purchaseNAV := sfN0 mf.purchaseNAV
      investedAmount := sfN0 mf.investedAmount
      purchaseDate := mf.purchaseDate
      totalValue := txnCurrentValue
      totalGain := txnGain
      gainPercent := txnGainPercent }] }

/-- Fund merge branch (src/server.js lines 189-225): the stored
`investedAmount` is carried forward and the incoming holding contributes
its own raw `investedAmount` field. -/
def mfMerge (existing : MFPos) (mf : RawMF) : MFPos :=
  let totalInvestment := jadd (renorm existing.investedAmount) (sfN0 mf.investedAmount)
  let totalUnits := jadd (renorm existing.units) (sfN0 mf.units)
  let currentNAV := sfN mf.currentNAV existing.currentNAV
  let totalValue := jmul totalUnits (renorm currentNAV)
  let totalGain := jsub totalValue totalInvestment
  let txnCurrentValue := jmul (sfN0 mf.units) (renorm currentNAV)
  let txnInvestedAmount := sfN0 mf.investedAmount
  let txnGain := jsub txnCurrentValue txnInvestedAmount
  let txnGainPercent :=
    if jgt txnInvestedAmount (fin 0)
    then jmul (jdiv txnGain txnInvestedAmount) (fin 100) else fin 0
  { existing with
    units := totalUnits
    investedAmount := totalInvestment
    purchaseNAV :=
      if jgt totalUnits (fin 0) then jdiv totalInvestment totalUnits else fin 0
    currentNAV := currentNAV
    change := sfN mf.change existing.change
    changePercent := sfN mf.changePercent existing.changePercent
    totalValue := totalValue
    totalGain := totalGain
    gainPercent :=
      if jgt totalInvestment (fin 0)
      then jmul (jdiv totalGain totalInvestment) (fin 100) else fin 0
    navDate := orStr mf.navDate existing.navDate
    transactions := existing.transactions ++ [{
      id := mf.id
      units := sfN0 mf.units
      purchaseNAV := sfN0 mf.purchaseNAV
      investedAmount := sfN0 mf.investedAmount
      purchaseDate := mf.purchaseDate
      totalValue := txnCurrentValue
      totalGain := txnGain
      gainPercent := txnGainPercent }] }

/-! The insertion-ordered JS `Map` is embedded as an association list:
`Map.has`/`Map.get` become `lookupKV`, in-place mutation of an existing
entry becomes `updateKV`, and `Map.set` on a new key appends. -/

/-- `Map.get` (first entry with the key). -/
def lookupKV {β : Type} : List (String × β) → String → Option β
  | [], _ => none
  | (k, v) :: t, key => if k = key then some v else lookupKV t key

/-- Replace the value stored at a key (identity when absent). -/
def updateKV {β : Type} : List (String × β) → String → β → List (String × β)
  | [], _, _ => []
  | (k, v) :: t, key, nv => if k = key then (k, nv) :: t else (k, v) :: updateKV t key nv

/-- One iteration of a consolidation loop: merge into the existing map
entry when the key was seen, otherwise insert the fresh position at the
end (JS `Map` preserves insertion order). -/
def gstep {α β : Type} (key : α → String) (ini : α → β) (mer : β → α → β)
    (m : List (String × β)) (a : α) : List (String × β) :=
  match lookupKV m (key a) with
  | some p => updateKV m (key a) (mer p a)
  | none => m ++ [(key a, ini a)]

/-- A whole consolidation loop (`portfolio.stocks.forEach(...)`). -/
def gfold {α β : Type} (key : α → String) (ini : α → β) (mer : β → α → β)
    (m : List (String × β)) (l : List α) : List (String × β) :=
  l.foldl (gstep key ini mer) m

/-- The stock loop of `consolidatePortfolio` (src/server.js lines
92-182), producing the `stockMap`. -/
def consolidateStocks (stocks : List RawStock) : List (String × StockPos) :=
  gfold (fun s => s.symbol) stockInit stockMerge [] stocks

/-- The fund loop of `consolidatePortfolio` (src/server.js lines
185-258), producing the `mfMap`. -/
def consolidateMFs (mfs : List RawMF) : List (String × MFPos) :=
  gfold (fun m => m.scheme) mfInit mfMerge [] mfs

/-- src/server.js lines 90-264: `consolidatePortfolio(portfolio)`
returns the map values in insertion order (`Array.from(map.values())`). -/
def consolidatePortfolio (portfolio : Portfolio) : ConsolidatedPortfolio :=
  { stocks := (consolidateStocks portfolio.stocks).map (·.2)
    mutualFunds := (consolidateMFs portfolio.mutualFunds).map (·.2) }

/-! ### Specification-side definitions used to state the claims -/

/-- The keys of an association list, in storage order. -/
def keysOf {β : Type} (m : List (String × β)) : List String := m.map (·.1)

/-- First-occurrence deduplication relative to an accumulator of
already-seen keys; `dedupAcc []` is the order of first occurrence. -/
def dedupAcc (seen : List String) : List String → List String
  | [] => []
  | k :: t => if k ∈ seen then dedupAcc seen t else k :: dedupAcc (seen ++ [k]) t

/-- The quantity stored in a map under a key (0 when absent). -/
def qtyAt {β : Type} (qp : β → JNum) (m : List (String × β)) (k : String) : JNum :=
  match lookupKV m k with
  | some p => qp p
  | none => .fin 0

/-- Plain JS summation of a list of numbers (left fold of `+` from 0);
the spec's "sum of the normalized quantities". -/
def jnumListSum (l : List JNum) : JNum := l.foldl jadd (.fin 0)

/-- Sum of the rational values of the transactions' quantities. -/
def stockTxnQtySum (l : List StockTxn) : ℚ := (l.map (fun t => t.quantity.toRat)).sum

/-- Sum of the rational values of the transactions' units. -/
def mfTxnQtySum (l : List MFTxn) : ℚ := (l.map (fun t => t.units.toRat)).sum

/-- Sum of the normalized quantities of the input stocks carrying a key. -/
def stockKeyQtySum (stocks : List RawStock) (k : String) : ℚ :=
  ((stocks.filter (fun s => s.symbol = k)).map (fun s => (sfN0 s.quantity).toRat)).sum

/-- The `ConsolidatedPosition` invariants of the spec, restricted to
what the code maintains on a stock position: the transaction quantities
(when finite) sum to the aggregate quantity; a positive finite
quantity forces `costBasis = investedAmount / quantity`; and a merged
position (2 or more transactions) has the guarded cost-basis and
gain-percent shapes of the merge branch. -/
def stockPosInv (pos : StockPos) : Prop :=
  ((∀ t ∈ pos.transactions, t.quantity.isFinite = true) →
      pos.quantity = .fin (stockTxnQtySum pos.transactions))
  ∧ ((∃ qq : ℚ, 0 < qq ∧ pos.quantity = .fin qq) →
      pos.purchasePrice = jdiv pos.investedAmount pos.quantity)
  ∧ (2 ≤ pos.transactions.length →
      pos.purchasePrice =
        (if jgt pos.quantity (.fin 0) then jdiv pos.investedAmount pos.quantity else .fin 0)
      ∧ pos.gainPercent =
        (if jgt pos.investedAmount (.fin 0)
         then jmul (jdiv pos.totalGain pos.investedAmount) (.fin 100) else .fin 0))

/-- The invariants the code maintains on a fund position: unlike stocks,
the cost-basis identity holds only for merged positions, because a
singleton keeps its raw `purchaseNAV` and raw `investedAmount`, which
the code never reconciles. -/
def mfPosInv (pos : MFPos) : Prop :=
  ((∀ t ∈ pos.transactions, t.units.isFinite = true) →
      pos.units = .fin (mfTxnQtySum pos.transactions))
  ∧ (2 ≤ pos.transactions.length →
      pos.purchaseNAV =
        (if jgt pos.units (.fin 0) then jdiv pos.investedAmount pos.units else .fin 0)
      ∧ pos.gainPercent =
        (if jgt pos.investedAmount (.fin 0)
         then jmul (jdiv pos.totalGain pos.investedAmount) (.fin 100) else .fin 0))

/-! ### Concrete inputs used by examples, counterexamples and witnesses -/

/-- Shorthand for a finite numeric JSON field. -/
def jn (q : ℚ) : JVal := .num (.fin q)

/-- 10 units at price 100 (spec example `10@100`). -/
def exStockA : RawStock :=
  { id := "1", symbol := "X", quantity := jn 10, purchasePrice := jn 100, currentPrice := jn 110 }

/-- 5 units at price 120 (spec example `5@120`). -/
def exStockB : RawStock :=
  { id := "2", symbol := "X", quantity := jn 5, purchasePrice := jn 120, currentPrice := jn 110 }

/-- A raw stock with the given id and symbol, quantity 1 at price 1. -/
def exStockKey (i sym : String) : RawStock :=
  { id := i, symbol := sym, quantity := jn 1, purchasePrice := jn 1 }

/-- A singleton holding whose raw `totalGain`/`gainPercent` fields are
inconsistent with its own quantities: quantity 1 at price 1, but raw
`totalGain` 5 and raw `gainPercent` 7. -/
def exStockRawGain : RawStock :=
  { id := "1", symbol := "A", quantity := jn 1, purchasePrice := jn 1,
    currentPrice := jn 2, totalGain := jn 5, gainPercent := jn 7 }

/-- Stocks of one symbol whose quantities parse to `Infinity`,
`-Infinity` and 5. -/
def exStocksInf : List RawStock :=
  [{ id := "1", symbol := "X", quantity := .str "Infinity", purchasePrice := jn 1 },
   { id := "2", symbol := "X", quantity := .str "-Infinity", purchasePrice := jn 1 },
   { id := "3", symbol := "X", quantity := jn 5, purchasePrice := jn 1 }]

/-- A fund holding of scheme F: 1 unit at NAV 1 with raw invested
amount 100 (so `investedAmount ≠ units * purchaseNAV`). -/
def exMFA : RawMF :=
  { id := "1", scheme := "F", units := jn 1, purchaseNAV := jn 1, investedAmount := jn 100 }

/-- A second holding of scheme F: 1 unit at NAV 1, invested amount 50. -/
def exMFB : RawMF :=
  { id := "2", scheme := "F", units := jn 1, purchaseNAV := jn 1, investedAmount := jn 50 }

/-- A concrete portfolio with one merged stock key and one merged fund
key, used to witness the consolidation invariants. -/
def exPortfolio : Portfolio :=
  { stocks := [exStockA, exStockB], mutualFunds := [exMFA, exMFB] }

/-! ### The Market-Data Reconciler (src/server.js lines 610-801)

The reconciler performs one network call per holding; each call's
outcome is supplied by an environment function indexed by the holding's
position in its list, so a thrown request, a malformed response body
and a well-formed quote are all expressible. -/

/-- Outcome of one Yahoo-Finance chart request (src/server.js lines
633-654): the request throws, the response lacks the
`chart.result[0].meta` structure, or it carries
`meta.regularMarketPrice` (NaN models a missing or non-numeric price
field, which behaves identically in the `currentPrice && currentPrice >
0` test). -/
inductive QuoteOutcome where
  | throws
  | malformed
  | quote (price : JNum)
deriving DecidableEq, Repr

/-- One entry of the MFAPI search response (src/server.js lines
711-725). -/
structure SearchResult where
  schemeCode : String
  schemeName : String
deriving DecidableEq, Repr

/-- Outcome of the scheme-code search request (src/server.js lines
703-731); a throw is caught locally by the inner catch. -/
inductive SearchOutcome where
  | throws
  | results (rs : List SearchResult)
deriving DecidableEq, Repr

/-- One NAV-history entry of the MFAPI fund response (`latestNav`,
src/server.js line 748); `nav` is a string in the API, parsed with
`parseFloat`. -/
structure NavEntry where
  nav : JVal
  date : String
deriving DecidableEq, Repr

/-- Outcome of the NAV-history request (src/server.js lines 736-747):
throw, a body without `data.data`, or the list of entries (most recent
first). -/
inductive NavOutcome where
  | throws
  | malformed
  | navs (entries : List NavEntry)
deriving DecidableEq, Repr

/-- The two network outcomes one fund iteration can consume. -/
structure FundOutcome where
  search : SearchOutcome
  fetch : NavOutcome
deriving DecidableEq, Repr

/-- src/server.js lines 624-630: append `.NS` when the stored symbol
carries no exchange suffix (affects only the request URL). -/
def deriveApiSymbol (symbol : String) : String :=
  if symbol.contains '.' then symbol else symbol ++ ".NS"

/-- One iteration of the stock refresh loop (src/server.js lines
621-691).  A holding with a falsy symbol is skipped entirely; a throw,
a malformed response or a price failing `currentPrice && currentPrice >
0` only sets `priceError`; a positive price recomputes the valuation
fields, rounding the stored price and both percentages to 2 decimals
(`toFixed(2)`; the JS code stores the percentage strings, whose numeric
values are recorded here). -/
def refreshStockOne (today : String) (o : QuoteOutcome) (s : RawStock) : RawStock :=
  if s.symbol.isEmpty then s
  else
    match o with
    | .throws => { s with priceError := some true }
    | .malformed => { s with priceError := some true }
    | .quote price =>
        if price.truthy && JNum.jgt price (.fin 0) then
          let currentPrice := JNum.jToFixed2 price
          let change := JNum.jsub currentPrice (toNumber s.purchasePrice)
          let changePercent :=
            JNum.jToFixed2 (JNum.jmul (JNum.jdiv change (toNumber s.purchasePrice)) (.fin 100))
          let totalValue := JNum.jmul (toNumber s.quantity) currentPrice
          let totalGain :=
            JNum.jsub totalValue (JNum.jmul (toNumber s.quantity) (toNumber s.purchasePrice))
          let gainPercent :=
            JNum.jToFixed2 (JNum.jmul
              (JNum.jdiv totalGain (JNum.jmul (toNumber s.quantity) (toNumber s.purchasePrice)))
              (.fin 100))
          { s with
            currentPrice := .num currentPrice
            change := .num change
            changePercent := .num changePercent
            totalValue := .num totalValue
            totalGain := .num totalGain
            gainPercent := .num gainPercent
            priceError := some false
            lastUpdated := some today }
        else { s with priceError := some true }

/-- src/server.js lines 711-725: an exact case-insensitive scheme-name
match in a non-empty search response yields its scheme code. -/
def searchSchemeCode (scheme : String) (o : SearchOutcome) : Option String :=
  match o with
  | .throws => none
  | .results rs =>
      if rs.isEmpty then none
      else
        match rs.find? (fun f => f.schemeName.toLower = scheme.toLower) with
        | some f => some f.schemeCode
        | none => none

/-- src/server.js lines 697-732: use the cached scheme code when truthy,
otherwise search and cache the found code onto the holding; returns the
available code (if any) and the possibly-updated holding. -/
def mfResolve (mf : RawMF) (o : SearchOutcome) : Option String × RawMF :=
  match mf.schemeCode with
  | some c =>
      if c.isEmpty then
        match searchSchemeCode mf.scheme o with
        | some c' => (some c', { mf with schemeCode := some c' })
        | none => (none, mf)
      else (some c, mf)
  | none =>
      match searchSchemeCode mf.scheme o with
      | some c' => (some c', { mf with schemeCode := some c' })
      | none => (none, mf)

/-- One iteration of the mutual-fund refresh loop (src/server.js lines
694-784): skip falsy schemes; without a code, or on a throw, malformed
body, empty history or a NAV failing `currentNAV && currentNAV > 0`,
set only `navError` (a code found by the search is still cached); a
positive NAV recomputes the valuation fields analogously to stocks and
stamps `navDate` from the entry. -/
def refreshMFOne (o : FundOutcome) (mf : RawMF) : RawMF :=
  if mf.scheme.isEmpty then mf
  else
    let r := mfResolve mf o.search
    match r.1 with
    | none => { r.2 with navError := some true }
    | some _ =>
        match o.fetch with
        | .throws => { r.2 with navError := some true }
        | .malformed => { r.2 with navError := some true }
        | .navs [] => { r.2 with navError := some true }
        | .navs (e :: _) =>
            let currentNAV := parseFloatVal e.nav
            if currentNAV.truthy && JNum.jgt currentNAV (.fin 0) then
              let cn := JNum.jToFixed2 currentNAV
              let change := JNum.jsub cn (toNumber r.2.purchaseNAV)
              let changePercent :=
                JNum.jToFixed2 (JNum.jmul (JNum.jdiv change (toNumber r.2.purchaseNAV)) (.fin 100))
              let totalValue := JNum.jmul (toNumber r.2.units) cn
              let totalGain := JNum.jsub totalValue (toNumber r.2.investedAmount)
              let gainPercent :=
                JNum.jToFixed2 (JNum.jmul (JNum.jdiv totalGain (toNumber r.2.investedAmount)) (.fin 100))
              { r.2 with
                currentNAV := .num cn
                change := .num change
                changePercent := .num changePercent
                totalValue := .num totalValue
                totalGain := .num totalGain
                gainPercent := .num gainPercent
                navError := some false
                navDate := some e.date }
            else { r.2 with navError := some true }

/-- Index-aware map starting at a given index: the embedding of a
sequential `for … of` loop whose iterations are independent (each
iteration's only interaction with the outside is its own network call,
and every exception is caught inside the iteration). -/
def mapIdxFrom {A B : Type} (f : ℕ → A → B) : ℕ → List A → List B
  | _, [] => []
  | n, a :: t => f n a :: mapIdxFrom f (n + 1) t

/-- The stock refresh loop over the whole list. -/
def refreshStocks (today : String) (env : ℕ → QuoteOutcome) (stocks : List RawStock) :
    List RawStock :=
  mapIdxFrom (fun i s => refreshStockOne today (env i) s) 0 stocks

/-- The mutual-fund refresh loop over the whole list. -/
def refreshMFs (env : ℕ → FundOutcome) (mfs : List RawMF) : List RawMF :=
  mapIdxFrom (fun i m => refreshMFOne (env i) m) 0 mfs

/-- An HTTP-level result as seen by the caller. -/
inductive ApiResult where
  | ok (message : String)
  | err (status : ℕ) (message : String)
deriving DecidableEq, Repr

/-- src/server.js lines 610-801: the `POST /api/refresh` handler — run
both loops, stamp `portfolio.lastUpdated` with the current time, persist
and answer success.  (File I/O is modelled as infallible: a persistence
failure is the separate fatal path of §7 of the spec, outside this
core.) -/
def refreshPortfolioHandler (now today : String) (envS : ℕ → QuoteOutcome)
    (envF : ℕ → FundOutcome) (p : Portfolio) : Portfolio × ApiResult :=
  let p1 := { p with stocks := refreshStocks today envS p.stocks }
  let p2 := { p1 with mutualFunds := refreshMFs envF p1.mutualFunds }
  let p3 := { p2 with lastUpdated := some now }
  (p3, .ok "Portfolio refreshed successfully")

/-- Three one-symbol stocks A, B, C for the isolation witness. -/
def exStocksThree : List RawStock :=
  [exStockKey "1" "A", exStockKey "2" "B", exStockKey "3" "C"]

/-- An environment where exactly the second call throws. -/
def exEnvSecondThrows : ℕ → QuoteOutcome :=
  fun i => if i = 1 then .throws else .quote (.fin 10)

/-- A fund environment whose NAV fetch reports a non-positive NAV. -/
def exEnvNavZero : ℕ → FundOutcome :=
  fun _ => { search := .results [], fetch := .navs [{ nav := .str "0", date := "01-01-2024" }] }

/-- A stock bought at 3, used to exhibit the stored rounding. -/
def exStockBasis3 : RawStock :=
  { id := "1", symbol := "A", quantity := jn 1, purchasePrice := jn 3 }

/-! ### Transaction update and delete endpoints (src/server.js lines
582-607 and 805-1036) -/

/-- Body of a `PUT /api/stocks/transaction/:id` request; absent fields
are `undefined`. -/
structure StockUpdateBody where
  symbol : Option String := none
  originalSymbol : Option String := none
  exchange : Option String := none
  quantity : JVal := .undef
  purchasePrice : JVal := .undef
  purchaseDate : Option String := none
deriving DecidableEq, Repr

/-- Body of a `PUT /api/mutual-funds/transaction/:id` request. -/
structure MFUpdateBody where
  scheme : Option String := none
  units : JVal := .undef
  purchaseNAV : JVal := .undef
  investedAmount : JVal := .undef
  purchaseDate : Option String := none
deriving DecidableEq, Repr

/-- The `updatedStock` object of src/server.js lines 834-869. -/
def updatedStock (b : StockUpdateBody) (companyName : Option String) (stock : RawStock) :
    RawStock :=
  let q := safeNumber b.quantity stock.quantity
  let pp := safeNumber b.purchasePrice stock.purchasePrice
  let cp := sfN0 stock.currentPrice
  let tv := JNum.jmul (toNumber q) cp
  let inv := JNum.jmul (toNumber q) (toNumber pp)
  { stock with
    symbol :=
      match b.symbol with
      | some s => if s.isEmpty then stock.symbol else s.toUpper
      | none => stock.symbol
    originalSymbol := orStr b.originalSymbol (orStr stock.originalSymbol (some stock.symbol))
    companyName :=
      orStr companyName (orStr stock.companyName
        (orStr b.originalSymbol (orStr stock.originalSymbol (some stock.symbol))))
    exchange := orStr b.exchange (orStr stock.exchange (some "NSE"))
    quantity := q
    purchasePrice := pp
    purchaseDate := orStr b.purchaseDate stock.purchaseDate
    totalValue := .num tv
    totalGain := .num (JNum.jsub tv inv)
    gainPercent := .num (if JNum.jgt inv (.fin 0)
      then JNum.jmul (JNum.jdiv (JNum.jsub tv inv) inv) (.fin 100) else .fin 0) }

/-- src/server.js lines 805-891: `PUT /api/stocks/transaction/:id`.
`fetched` is the company name the external lookup returned (consulted
only when the body carries a truthy symbol); a missing id answers 404
without writing the file. -/
def updateStockTransaction (id : String) (b : StockUpdateBody) (fetched : Option String)
    (p : Portfolio) : Portfolio × ApiResult :=
  let companyName := if strTruthy b.symbol then fetched else none
  let found := p.stocks.any (fun s => s.id = id)
  if found then
    ({ p with stocks := p.stocks.map (fun s =>
        if s.id = id then updatedStock b companyName s else s) },
     .ok "Stock transaction updated successfully")
  else (p, .err 404 "Stock transaction not found")

/-- src/server.js lines 893-929: `DELETE /api/stocks/transaction/:id`;
a missing id answers 404 without writing the file. -/
def deleteStockTransaction (id : String) (p : Portfolio) : Portfolio × ApiResult :=
  let found := p.stocks.any (fun s => s.id = id)
  if found then
    ({ p with stocks := p.stocks.filter (fun s => s.id ≠ id) },
     .ok "Stock transaction deleted successfully")
  else (p, .err 404 "Stock transaction not found")

/-- The `updatedMF` object of src/server.js lines 950-968. -/
def updatedMF (b : MFUpdateBody) (mf : RawMF) : RawMF :=
  let u := safeNumber b.units mf.units
  let pn := safeNumber b.purchaseNAV mf.purchaseNAV
  let ia := safeNumber b.investedAmount mf.investedAmount
  let cn := sfN0 mf.currentNAV
  let tv := JNum.jmul (toNumber u) cn
  let tg := JNum.jsub tv (toNumber ia)
  { mf with
    scheme :=
      match b.scheme with
      | some s => if s.isEmpty then mf.scheme else s
      | none => mf.scheme
    units := u
    purchaseNAV := pn
    investedAmount := ia
    purchaseDate := orStr b.purchaseDate mf.purchaseDate
    totalValue := .num tv
    totalGain := .num tg
    gainPercent := .num (if JNum.jgt (toNumber ia) (.fin 0)
      then JNum.jmul (JNum.jdiv tg (toNumber ia)) (.fin 100) else .fin 0) }

/-- src/server.js lines 933-994: `PUT /api/mutual-funds/transaction/:id`. -/
def updateMFTransaction (id : String) (b : MFUpdateBody) (p : Portfolio) :
    Portfolio × ApiResult :=
  let found := p.mutualFunds.any (fun m => m.id = id)
  if found then
    ({ p with mutualFunds := p.mutualFunds.map (fun m =>
        if m.id = id then updatedMF b m else m) },
     .ok "Mutual fund transaction updated successfully")
  else (p, .err 404 "Mutual fund transaction not found")

/-- src/server.js lines 996-1036: `DELETE /api/mutual-funds/transaction/:id`. -/
def deleteMFTransaction (id : String) (p : Portfolio) : Portfolio × ApiResult :=
  let found := p.mutualFunds.any (fun m => m.id = id)
  if found then
    ({ p with mutualFunds := p.mutualFunds.filter (fun m => m.id ≠ id) },
     .ok "Mutual fund transaction deleted successfully")
  else (p, .err 404 "Mutual fund transaction not found")

/-- src/server.js lines 582-607: `DELETE /api/portfolio/transaction/:id`
filters both collections and always answers success — there is no
not-found check. -/
def deletePortfolioTransaction (id : String) (p : Portfolio) : Portfolio × ApiResult :=
  ({ p with
      stocks := p.stocks.filter (fun s => s.id ≠ id)
      mutualFunds := p.mutualFunds.filter (fun m => m.id ≠ id) },
   .ok "Transaction deleted successfully")

/-- A small portfolio whose ids are "1" (stock A) and "1" (fund F);
id "9" is absent from it. -/
def exP9 : Portfolio := { stocks := [exStockKey "1" "A"], mutualFunds := [exMFA] }

/-! ### Object-identity model of consolidation (src/server.js lines
90-264 at the address level)

`consolidatePortfolio` never stores an input object in its maps: the
first-occurrence branch stores the spread copy `{...stock, ...}` — a
freshly allocated object — and the merge branch mutates that copy in
place.  To state this frame property, the same `stockInit`/`stockMerge`
(`mfInit`/`mfMerge`) record transformers are run over an explicit heap
in which the raw holdings are objects with addresses. -/

/-- A heap object: a raw holding (input) or a consolidated position
(the allocated spread copy). -/
inductive Obj where
  | stockRaw (s : RawStock)
  | stockPos (p : StockPos)
  | mfRaw (m : RawMF)
  | mfPos (p : MFPos)
deriving DecidableEq, Repr

/-- The heap: an address is an index into the list, allocation appends. -/
abbrev Heap := List Obj

/-- In-place update of the object stored at an address. -/
def writeAt {A : Type} : List A → ℕ → A → List A
  | [], _, _ => []
  | _ :: t, 0, a => a :: t
  | x :: t, n + 1, a => x :: writeAt t n a

/-- One stock-loop iteration at the address level: a fresh symbol
allocates `stockInit s` as a new object and records its address; a seen
symbol mutates (heap-writes) the object its map entry points at. -/
def stockStepH (st : Heap × List (String × ℕ)) (a : ℕ) : Heap × List (String × ℕ) :=
  match st.1.get? a with
  | some (.stockRaw s) =>
      match lookupKV st.2 s.symbol with
      | some addr =>
          match st.1.get? addr with
          | some (.stockPos p) => (writeAt st.1 addr (.stockPos (stockMerge p s)), st.2)
          | _ => st
      | none => (st.1 ++ [.stockPos (stockInit s)], st.2 ++ [(s.symbol, st.1.length)])
  | _ => st

/-- One fund-loop iteration at the address level. -/
def mfStepH (st : Heap × List (String × ℕ)) (a : ℕ) : Heap × List (String × ℕ) :=
  match st.1.get? a with
  | some (.mfRaw m) =>
      match lookupKV st.2 m.scheme with
      | some addr =>
          match st.1.get? addr with
          | some (.mfPos p) => (writeAt st.1 addr (.mfPos (mfMerge p m)), st.2)
          | _ => st
      | none => (st.1 ++ [.mfPos (mfInit m)], st.2 ++ [(m.scheme, st.1.length)])
  | _ => st

/-- `consolidatePortfolio` at the address level: run the stock loop,
then the fund loop, over the heap holding the raw holdings at the given
addresses; returns the final heap and the two key-to-address maps. -/
def consolidateH (h : Heap) (stockAddrs mfAddrs : List ℕ) :
    Heap × List (String × ℕ) × List (String × ℕ) :=
  let s := stockAddrs.foldl stockStepH (h, [])
  let m := mfAddrs.foldl mfStepH (s.1, [])
  (m.1, s.2, m.2)

/-- A two-object heap holding the raw inputs 10@100 and 5@120. -/
def exHeap : Heap := [.stockRaw exStockA, .stockRaw exStockB]

/-- The well-formedness the fold maintains: the heap never shrinks
below the initial allocation bound and every map entry addresses a
consolidated position allocated at or after that bound. -/
def HInv (n0 : ℕ) (st : Heap × List (String × ℕ)) : Prop :=
  n0 ≤ st.1.length ∧ ∀ e ∈ st.2, n0 ≤ e.2 ∧ e.2 < st.1.length

/-! ## Helper lemmas -/

theorem lookupKV_mem {β : Type} {m : List (String × β)} {k : String} {p : β}
    (h : lookupKV m k = some p) : (k, p) ∈ m := by
  induction m with
  | nil => simp [lookupKV] at h
  | cons e t ih =>
      obtain ⟨k', v⟩ := e
      by_cases hk : k' = k
      · subst hk
        simp [lookupKV] at h
        subst h
        exact List.mem_cons_self _ _
      · simp [lookupKV, hk] at h
        exact List.mem_cons_of_mem _ (ih h)

theorem mem_updateKV {β : Type} {m : List (String × β)} {k : String} {nv : β} {e : String × β}
    (h : e ∈ updateKV m k nv) : e ∈ m ∨ e = (k, nv) := by
  induction m with
  | nil => simp [updateKV] at h
  | cons hd t ih =>
      obtain ⟨k', v⟩ := hd
      by_cases hk : k' = k
      · subst hk
        simp [updateKV] at h
        rcases h with h | h
        · right; simp [h]
        · left; exact List.mem_cons_of_mem _ h
      · simp [updateKV, hk] at h
        rcases h with h | h
        · left; simp [h]
        · rcases ih h with h' | h'
          · left; exact List.mem_cons_of_mem _ h'
          · right; exact h'

theorem keysOf_updateKV {β : Type} (m : List (String × β)) (k : String) (nv : β) :
    keysOf (updateKV m k nv) = keysOf m := by
  induction m with
  | nil => rfl
  | cons hd t ih =>
      obtain ⟨k', v⟩ := hd
      by_cases hk : k' = k
      · simp [updateKV, keysOf, hk]
      · simp [updateKV, keysOf, hk]
        simpa [keysOf] using ih

theorem lookupKV_updateKV_self {β : Type} {m : List (String × β)} {k : String} {p : β}
    (h : lookupKV m k = some p) (nv : β) : lookupKV (updateKV m k nv) k = some nv := by
  induction m with
  | nil => simp [lookupKV] at h
  | cons hd t ih =>
      obtain ⟨k', v⟩ := hd
      by_cases hk : k' = k
      · subst hk; simp [updateKV, lookupKV]
      · simp [lookupKV, hk] at h
        simp [updateKV, lookupKV, hk]
        exact ih h

theorem lookupKV_updateKV_ne {β : Type} (m : List (String × β)) {k k' : String}
    (h : k' ≠ k) (nv : β) : lookupKV (updateKV m k nv) k' = lookupKV m k' := by
  induction m with
  | nil => rfl
  | cons hd t ih =>
      obtain ⟨k0, v⟩ := hd
      by_cases hk : k0 = k
      · have hne : k0 ≠ k' := by rw [hk]; exact fun hh => h hh.symm
        have hne2 : k ≠ k' := fun hh => h hh.symm
        simp [updateKV, lookupKV, hk, hne, hne2]
      · by_cases hk' : k0 = k'
        · subst hk'; simp [updateKV, lookupKV, hk]
        · simp [updateKV, lookupKV, hk, hk', ih]

theorem lookupKV_append {β : Type} (m l : List (String × β)) (k : String) :
    lookupKV (m ++ l) k =
      (match lookupKV m k with
       | some p => some p
       | none => lookupKV l k) := by
  induction m with
  | nil => simp [lookupKV]
  | cons hd t ih =>
      obtain ⟨k', v⟩ := hd
      by_cases hk : k' = k <;> simp [lookupKV, hk, ih]

theorem lookupKV_some_mem_keys {β : Type} {m : List (String × β)} {k : String} {p : β}
    (h : lookupKV m k = some p) : k ∈ keysOf m := by
  have := lookupKV_mem h
  exact List.mem_map.mpr ⟨(k, p), this, rfl⟩

theorem lookupKV_none_not_mem_keys {β : Type} {m : List (String × β)} {k : String}
    (h : lookupKV m k = none) : k ∉ keysOf m := by
  induction m with
  | nil => simp [keysOf]
  | cons hd t ih =>
      obtain ⟨k', v⟩ := hd
      by_cases hk : k' = k
      · subst hk; simp [lookupKV] at h
      · simp [lookupKV, hk] at h
        simp [keysOf, hk]
        constructor
        · exact fun hh => hk hh.symm
        · simpa [keysOf] using ih h

/-- Every value stored in the result of a consolidation fold satisfies
any property established by the first-occurrence branch and preserved
by the merge branch. -/
theorem gfold_inv {α β : Type} (key : α → String) (ini : α → β) (mer : β → α → β)
    (P : String × β → Prop)
    (h1 : ∀ a, P (key a, ini a)) (h2 : ∀ k p a, P (k, p) → P (k, mer p a)) :
    ∀ (l : List α) (m : List (String × β)), (∀ e ∈ m, P e) →
      ∀ e ∈ gfold key ini mer m l, P e := by
  intro l
  induction l with
  | nil => intro m hm e he; exact hm e he
  | cons a t ih =>
      intro m hm e he
      refine ih (gstep key ini mer m a) ?_ e he
      intro e' he'
      unfold gstep at he'
      cases hl : lookupKV m (key a) with
      | some p =>
          rw [hl] at he'
          rcases mem_updateKV he' with h' | h'
          · exact hm e' h'
          · subst h'
            exact h2 _ _ _ (hm _ (lookupKV_mem hl))
      | none =>
          rw [hl] at he'
          rcases List.mem_append.mp he' with h' | h'
          · exact hm e' h'
          · simp at h'
            subst h'
            exact h1 a

/-- The keys of a consolidation fold are the already-present keys
followed by the first occurrences of the new keys, in input order. -/
theorem gfold_keys {α β : Type} (key : α → String) (ini : α → β) (mer : β → α → β) :
    ∀ (l : List α) (m : List (String × β)),
      keysOf (gfold key ini mer m l) = keysOf m ++ dedupAcc (keysOf m) (l.map key) := by
  intro l
  induction l with
  | nil => intro m; simp [gfold, dedupAcc]
  | cons a t ih =>
      intro m
      show keysOf (gfold key ini mer (gstep key ini mer m a) t) = _
      unfold gstep
      cases hl : lookupKV m (key a) with
      | some p =>
          have hmem : key a ∈ keysOf m := lookupKV_some_mem_keys hl
          rw [ih]
          simp [dedupAcc, hmem, keysOf_updateKV]
      | none =>
          have hmem : key a ∉ keysOf m := lookupKV_none_not_mem_keys hl
          rw [ih]
          have hk : keysOf (m ++ [(key a, ini a)]) = keysOf m ++ [key a] := by
            simp [keysOf]
          rw [hk]
          simp [dedupAcc, hmem, List.append_assoc]

theorem isFinite_eq_fin_toRat {n : JNum} (h : n.isFinite = true) : n = .fin n.toRat := by
  cases n <;> simp_all [JNum.isFinite, JNum.toRat]

theorem sfN0_not_nan (v : JVal) : (sfN0 v).isNaN = false := by
  unfold sfN0 sfN
  split
  · rfl
  · next h => simpa using h

theorem renorm_not_nan {n : JNum} (h : n.isNaN = false) : renorm n = n := by
  simp [renorm, h]

theorem renorm_fin (q : ℚ) : renorm (.fin q) = .fin q := rfl

theorem jadd_fin (a b : ℚ) : jadd (.fin a) (.fin b) = .fin (a + b) := rfl

/-- Dividing `q * n` back by a positive finite `q` recovers any
non-NaN `n` in JS arithmetic. -/
theorem jdiv_jmul_fin_pos {qq : ℚ} (hq : 0 < qq) {n : JNum} (hn : n.isNaN = false) :
    jdiv (jmul (.fin qq) n) (.fin qq) = n := by
  have hne : qq ≠ 0 := ne_of_gt hq
  have hnlt : ¬ qq < 0 := not_lt.mpr (le_of_lt hq)
  cases n with
  | nan => simp [JNum.isNaN] at hn
  | inf => simp [JNum.jmul, JNum.jdiv, hq, hnlt]
  | ninf => simp [JNum.jmul, JNum.jdiv, hq, hnlt]
  | fin r =>
      simp [JNum.jmul, JNum.jdiv, hne]

/-- Multiplying `ii / q` back by a positive finite `q` recovers any
`ii` in JS arithmetic. -/
theorem jmul_fin_jdiv {qq : ℚ} (hq : 0 < qq) (ii : JNum) :
    jmul (.fin qq) (jdiv ii (.fin qq)) = ii := by
  have hne : qq ≠ 0 := ne_of_gt hq
  have hnlt : ¬ qq < 0 := not_lt.mpr (le_of_lt hq)
  cases ii with
  | nan => simp [JNum.jmul, JNum.jdiv]
  | inf => simp [JNum.jmul, JNum.jdiv, hq, hnlt]
  | ninf => simp [JNum.jmul, JNum.jdiv, hq, hnlt]
  | fin v =>
      simp [JNum.jdiv, hne, JNum.jmul]
      rw [mul_comm]
      exact div_mul_cancel₀ v hne

/-! ## Claim C6: the numeric normalizer -/

/-- C6 counterexample: the claim says `normalize` returns the default
whenever the parse yields a non-finite result, but
`parseFloat("Infinity")` is the non-finite `Infinity`, which is not NaN,
so `safeNumber("Infinity", 7)` returns `Infinity`, not the default 7. -/
theorem C6_counterexample :
    jsParseFloat "Infinity" = JNum.inf
    ∧ JNum.isFinite JNum.inf = false
    ∧ safeNumber (.str "Infinity") (jn 7) = .num .inf
    ∧ safeNumber (.str "Infinity") (jn 7) ≠ jn 7 := by
  refine ⟨by decide, rfl, by decide, by decide⟩

/-- C6 (amended): `safeNumber(value, default)` parses `value` with
`parseFloat` and returns the default exactly when the parse yields NaN;
a non-finite but non-NaN parse result (`±Infinity`) is returned as-is.
It never throws (it is a total function), and the claim's examples
hold: `safeNumber("abc", 7) = 7`, `safeNumber("3.5", 0) = 3.5`, and a
NaN-producing input with default 0 yields 0. -/
theorem C6_safeNumber_amended :
    (∀ v d : JVal,
      ((parseFloatVal v).isNaN = true → safeNumber v d = d)
      ∧ ((parseFloatVal v).isNaN = false → safeNumber v d = .num (parseFloatVal v)))
    ∧ safeNumber (.str "abc") (jn 7) = jn 7
    ∧ safeNumber (.str "3.5") (jn 0) = jn (7/2)
    ∧ safeNumber (.num .nan) (jn 0) = jn 0 := by
  refine ⟨fun v d => ⟨fun h => by simp [safeNumber, h], fun h => by simp [safeNumber, h]⟩,
    by decide, by decide, by decide⟩

/-- Witness for C6: applying the amended theorem at the concrete
NaN-parsing input `null` with default 3. -/
theorem C6_safeNumber_amended_witness :
    safeNumber .null (jn 3) = jn 3 :=
  (C6_safeNumber_amended.1 .null (jn 3)).1 (by decide)

/-! ## Claim C5: output order is first-occurrence order -/

/-- C5: `consolidatePortfolio` emits its output positions (stocks and
funds alike) in order of the first occurrence of each instrument key in
the input sequence, not sorted; in particular an input whose symbols
occur in order A, B, A, C yields positions in order A, B, C. -/
theorem C5_first_seen_order :
    (∀ p : Portfolio,
      (consolidatePortfolio p).stocks.map (fun pos => pos.symbol)
        = dedupAcc [] (p.stocks.map (fun s => s.symbol))
      ∧ (consolidatePortfolio p).mutualFunds.map (fun pos => pos.scheme)
        = dedupAcc [] (p.mutualFunds.map (fun m => m.scheme)))
    ∧ (consolidatePortfolio
        { stocks := [exStockKey "1" "A", exStockKey "2" "B", exStockKey "3" "A", exStockKey "4" "C"],
          mutualFunds := [] }).stocks.map (fun pos => pos.symbol) = ["A", "B", "C"] := by
  constructor
  · intro p
    constructor
    · have hsym : ∀ e ∈ consolidateStocks p.stocks, e.2.symbol = e.1 := by
        refine gfold_inv (fun s : RawStock => s.symbol) stockInit stockMerge
          (fun e => e.2.symbol = e.1) (fun a => rfl) ?_ p.stocks [] (by simp)
        intro k pos a h
        simpa [stockMerge] using h
      calc (consolidatePortfolio p).stocks.map (fun pos => pos.symbol)
          = (consolidateStocks p.stocks).map (fun e => e.2.symbol) := by
            simp [consolidatePortfolio, List.map_map]
        _ = keysOf (consolidateStocks p.stocks) := List.map_congr_left hsym
        _ = dedupAcc [] (p.stocks.map (fun s => s.symbol)) := by
            have := gfold_keys (fun s : RawStock => s.symbol) stockInit stockMerge p.stocks []
            simpa [consolidateStocks, gfold, keysOf] using this
    · have hsym : ∀ e ∈ consolidateMFs p.mutualFunds, e.2.scheme = e.1 := by
        refine gfold_inv (fun m : RawMF => m.scheme) mfInit mfMerge
          (fun e => e.2.scheme = e.1) (fun a => rfl) ?_ p.mutualFunds [] (by simp)
        intro k pos a h
        simpa [mfMerge] using h
      calc (consolidatePortfolio p).mutualFunds.map (fun pos => pos.scheme)
          = (consolidateMFs p.mutualFunds).map (fun e => e.2.scheme) := by
            simp [consolidatePortfolio, List.map_map]
        _ = keysOf (consolidateMFs p.mutualFunds) := List.map_congr_left hsym
        _ = dedupAcc [] (p.mutualFunds.map (fun m => m.scheme)) := by
            have := gfold_keys (fun m : RawMF => m.scheme) mfInit mfMerge p.mutualFunds []
            simpa [consolidateMFs, gfold, keysOf] using this
  · decide

/-! ## Quantity conservation (claim C4) -/

theorem qtyAt_some {β : Type} (qp : β → JNum) {m : List (String × β)} {k : String} {p : β}
    (h : lookupKV m k = some p) : qtyAt qp m k = qp p := by
  simp [qtyAt, h]

theorem qtyAt_none {β : Type} (qp : β → JNum) {m : List (String × β)} {k : String}
    (h : lookupKV m k = none) : qtyAt qp m k = .fin 0 := by
  simp [qtyAt, h]

/-- Provided every contribution is finite and the map currently holds
only finite quantities, a consolidation fold accumulates, under each
key, exactly the rational sum of the contributions carrying that key. -/
theorem gfold_qtyAt {α β : Type} (key : α → String) (ini : α → β) (mer : β → α → β)
    (qa : α → JNum) (qp : β → JNum)
    (hI : ∀ a, qp (ini a) = qa a)
    (hM : ∀ p a, qp (mer p a) = jadd (renorm (qp p)) (qa a)) :
    ∀ (l : List α) (m : List (String × β)),
      (∀ a ∈ l, (qa a).isFinite = true) →
      (∀ k, (qtyAt qp m k).isFinite = true) →
      ∀ k, qtyAt qp (gfold key ini mer m l) k
        = .fin ((qtyAt qp m k).toRat
            + ((l.filter (fun a => key a = k)).map (fun a => (qa a).toRat)).sum) := by
  intro l
  induction l with
  | nil =>
      intro m _ hm k
      show qtyAt qp m k = _
      rw [isFinite_eq_fin_toRat (hm k)]
      simp [JNum.toRat]
  | cons a t ih =>
      intro m hl hm k
      have hfa : (qa a).isFinite = true := hl a (List.mem_cons_self _ _)
      have hstep : ∀ k', qtyAt qp (gstep key ini mer m a) k'
          = .fin ((qtyAt qp m k').toRat + (if key a = k' then (qa a).toRat else 0)) := by
        intro k'
        unfold gstep
        cases hlk : lookupKV m (key a) with
        | some p =>
            have hq : qtyAt qp m (key a) = qp p := qtyAt_some qp hlk
            have hfinp : (qp p).isFinite = true := by rw [← hq]; exact hm _
            by_cases hk : key a = k'
            · subst hk
              have h1 : lookupKV (updateKV m (key a) (mer p a)) (key a) = some (mer p a) :=
                lookupKV_updateKV_self hlk _
              rw [qtyAt_some qp h1, hM, hq]
              rw [isFinite_eq_fin_toRat hfinp, isFinite_eq_fin_toRat hfa]
              simp [renorm_fin, jadd_fin, JNum.toRat]
            · have h1 : lookupKV (updateKV m (key a) (mer p a)) k' = lookupKV m k' :=
                lookupKV_updateKV_ne m (fun hh => hk hh.symm) _
              show qtyAt qp (updateKV m (key a) (mer p a)) k' = _
              rw [show qtyAt qp (updateKV m (key a) (mer p a)) k' = qtyAt qp m k' by
                simp [qtyAt, h1]]
              rw [isFinite_eq_fin_toRat (hm k')]
              simp [hk, JNum.toRat]
        | none =>
            by_cases hk : key a = k'
            · subst hk
              have h1 : lookupKV (m ++ [(key a, ini a)]) (key a) = some (ini a) := by
                rw [lookupKV_append, hlk]
                simp [lookupKV]
              rw [qtyAt_some qp h1, hI, qtyAt_none qp hlk]
              rw [isFinite_eq_fin_toRat hfa]
              simp [JNum.toRat]
            · have h1 : lookupKV (m ++ [(key a, ini a)]) k' = lookupKV m k' := by
                rw [lookupKV_append]
                cases hlk' : lookupKV m k' with
                | some p => rfl
                | none => simp [lookupKV, hk]
              show qtyAt qp (m ++ [(key a, ini a)]) k' = _
              rw [show qtyAt qp (m ++ [(key a, ini a)]) k' = qtyAt qp m k' by
                simp [qtyAt, h1]]
              rw [isFinite_eq_fin_toRat (hm k')]
              simp [hk, JNum.toRat]
      have hfin' : ∀ k', (qtyAt qp (gstep key ini mer m a) k').isFinite = true := by
        intro k'
        rw [hstep k']
        rfl
      have hgoal := ih (gstep key ini mer m a) (fun x hx => hl x (List.mem_cons_of_mem _ hx)) hfin' k
      show qtyAt qp (gfold key ini mer (gstep key ini mer m a) t) k = _
      rw [hgoal, hstep k]
      by_cases hk : key a = k
      · simp [hk, JNum.toRat, List.filter_cons, add_assoc]
      · simp [hk, JNum.toRat, List.filter_cons]

/-- C4 (amended): for every input sequence whose normalized quantities
are all finite, the aggregate quantity stored under each instrument key
is the rational sum of the normalized quantities of the holdings
carrying that key, and merging {10@100, 5@120} yields quantity 15 with
cost basis 1600/15 = 320/3 = 106.666… .  (Finiteness is required: see
the counterexample with `Infinity` quantities.) -/
theorem C4_quantity_conservation :
    (∀ (stocks : List RawStock) (k : String),
      (∀ s ∈ stocks, (sfN0 s.quantity).isFinite = true) →
      qtyAt (fun p : StockPos => p.quantity) (consolidateStocks stocks) k
        = .fin (stockKeyQtySum stocks k))
    ∧ (consolidateStocks [exStockA, exStockB]).map (fun e => (e.2.quantity, e.2.purchasePrice))
        = [(.fin 15, .fin (320/3))] := by
  constructor
  · intro stocks k hfin
    have h := gfold_qtyAt (fun s : RawStock => s.symbol) stockInit stockMerge
      (fun s => sfN0 s.quantity) (fun p : StockPos => p.quantity)
      (fun a => rfl) (fun p a => rfl) stocks [] hfin (fun k' => rfl) k
    simpa [consolidateStocks, gfold, qtyAt, lookupKV, JNum.toRat, stockKeyQtySum] using h
  · decide

/-- Witness for C4: the conservation theorem applied to the concrete
two-holding input {10@100, 5@120} under key X. -/
theorem C4_quantity_conservation_witness :
    qtyAt (fun p : StockPos => p.quantity) (consolidateStocks [exStockA, exStockB]) "X"
      = .fin (stockKeyQtySum [exStockA, exStockB] "X") :=
  C4_quantity_conservation.1 [exStockA, exStockB] "X" (by decide)

/-- C4 counterexample: with quantities parsing to `Infinity`,
`-Infinity` and 5 under one key, the code's aggregate quantity is 5
(the intermediate NaN aggregate is re-normalized to 0 by `safeNumber`
on the next merge), while the plain sum of the normalized quantities is
NaN — so the claim's unconditional conservation equation fails. -/
theorem C4_counterexample :
    (consolidateStocks exStocksInf).map (fun e => e.2.quantity) = [.fin 5]
    ∧ jnumListSum (exStocksInf.map (fun s => sfN0 s.quantity)) = .nan
    ∧ JNum.fin 5 ≠ JNum.nan := by
  refine ⟨by decide, by decide, by decide⟩

/-! ## Position invariants (claim C2) -/

theorem stockInit_inv (s : RawStock) : stockPosInv (stockInit s) := by
  refine ⟨?_, ?_, ?_⟩
  · intro hfin
    have h0 : (sfN0 s.quantity).isFinite = true := by
      simpa [stockInit] using hfin
    show (stockInit s).quantity = _
    have hq : (stockInit s).quantity = sfN0 s.quantity := rfl
    rw [hq, isFinite_eq_fin_toRat h0]
    simp [stockInit, stockTxnQtySum, JNum.toRat]
  · rintro ⟨qq, hq, hqq⟩
    show (stockInit s).purchasePrice
      = JNum.jdiv (stockInit s).investedAmount (stockInit s).quantity
    have h1 : (stockInit s).quantity = sfN0 s.quantity := rfl
    have h2 : (stockInit s).purchasePrice = sfN0 s.purchasePrice := rfl
    have h3 : (stockInit s).investedAmount
        = JNum.jmul (sfN0 s.quantity) (sfN0 s.purchasePrice) := rfl
    rw [h1] at hqq
    rw [h2, h3, hqq]
    rw [show (stockInit s).quantity = sfN0 s.quantity from rfl, hqq]
    exact (jdiv_jmul_fin_pos hq (sfN0_not_nan _)).symm
  · intro hlen
    simp [stockInit] at hlen

theorem stockMerge_inv {pos : StockPos} (s : RawStock) (h : stockPosInv pos) :
    stockPosInv (stockMerge pos s) := by
  obtain ⟨h1, _, _⟩ := h
  refine ⟨?_, ?_, ?_⟩
  · intro hfin
    have hsub : ∀ t ∈ pos.transactions, t.quantity.isFinite = true :=
      fun t ht => hfin t (List.mem_append_left _ ht)
    have hnew : (sfN0 s.quantity).isFinite = true :=
      hfin _ (List.mem_append_right pos.transactions (List.mem_singleton_self _))
    have hq := h1 hsub
    show (stockMerge pos s).quantity = _
    have hdef : (stockMerge pos s).quantity = JNum.jadd (renorm pos.quantity) (sfN0 s.quantity) := rfl
    rw [hdef, hq, renorm_fin, isFinite_eq_fin_toRat hnew, jadd_fin]
    show _ = JNum.fin (stockTxnQtySum (pos.transactions ++ _))
    simp [stockTxnQtySum, JNum.toRat]
  · rintro ⟨qq, hq, hqq⟩
    have hgt : JNum.jgt (stockMerge pos s).quantity (.fin 0) = true := by
      rw [hqq]
      simp [JNum.jgt, hq]
    have hdef : (stockMerge pos s).purchasePrice
        = (if JNum.jgt (stockMerge pos s).quantity (.fin 0)
           then JNum.jdiv (stockMerge pos s).investedAmount (stockMerge pos s).quantity
           else .fin 0) := rfl
    rw [hdef]
    simp [hgt]
  · intro _
    exact ⟨rfl, rfl⟩

theorem mfInit_inv (m : RawMF) : mfPosInv (mfInit m) := by
  refine ⟨?_, ?_⟩
  · intro hfin
    have h0 : (sfN0 m.units).isFinite = true := by
      simpa [mfInit] using hfin
    show (mfInit m).units = _
    have hq : (mfInit m).units = sfN0 m.units := rfl
    rw [hq, isFinite_eq_fin_toRat h0]
    simp [mfInit, mfTxnQtySum, JNum.toRat]
  · intro hlen
    simp [mfInit] at hlen

theorem mfMerge_inv {pos : MFPos} (m : RawMF) (h : mfPosInv pos) :
    mfPosInv (mfMerge pos m) := by
  obtain ⟨h1, _⟩ := h
  refine ⟨?_, ?_⟩
  · intro hfin
    have hsub : ∀ t ∈ pos.transactions, t.units.isFinite = true :=
      fun t ht => hfin t (List.mem_append_left _ ht)
    have hnew : (sfN0 m.units).isFinite = true :=
      hfin _ (List.mem_append_right pos.transactions (List.mem_singleton_self _))
    have hq := h1 hsub
    show (mfMerge pos m).units = _
    have hdef : (mfMerge pos m).units = JNum.jadd (renorm pos.units) (sfN0 m.units) := rfl
    rw [hdef, hq, renorm_fin, isFinite_eq_fin_toRat hnew, jadd_fin]
    show _ = JNum.fin (mfTxnQtySum (pos.transactions ++ _))
    simp [mfTxnQtySum, JNum.toRat]
  · intro _
    exact ⟨rfl, rfl⟩

/-- C2 (amended): every position produced by `consolidatePortfolio`
satisfies the invariants the code actually maintains: the transaction
quantities (units), when finite, sum to the aggregate quantity (units);
any position with a positive finite stock quantity has
`costBasis = investedAmount / quantity`; and merged positions carry the
guarded cost-basis and gain-percent identities of the merge branch
(`0` whenever the guard `quantity > 0` resp. `investedAmount > 0`
fails).  The claim's unconditional identities do not hold for
singletons: a first-occurrence stock position copies its raw
`totalGain`/`gainPercent` fields verbatim, and a first-occurrence fund
position keeps its raw `purchaseNAV` and raw `investedAmount`,
unreconciled. -/
theorem C2_position_invariants :
    (∀ p : Portfolio, ∀ pos ∈ (consolidatePortfolio p).stocks, stockPosInv pos)
    ∧ (∀ p : Portfolio, ∀ pos ∈ (consolidatePortfolio p).mutualFunds, mfPosInv pos)
    ∧ (∀ s : RawStock, (stockInit s).totalGain = sfN0 s.totalGain
        ∧ (stockInit s).gainPercent = sfN0 s.gainPercent)
    ∧ (∀ m : RawMF, (mfInit m).purchaseNAV = sfN0 m.purchaseNAV
        ∧ (mfInit m).investedAmount = sfN0 m.investedAmount) := by
  refine ⟨?_, ?_, fun s => ⟨rfl, rfl⟩, fun m => ⟨rfl, rfl⟩⟩
  · intro p pos hmem
    obtain ⟨e, he, rfl⟩ := List.mem_map.mp hmem
    exact gfold_inv (fun s : RawStock => s.symbol) stockInit stockMerge
      (fun e => stockPosInv e.2) (fun a => stockInit_inv a)
      (fun k q a hq => stockMerge_inv a hq) p.stocks [] (by simp) e he
  · intro p pos hmem
    obtain ⟨e, he, rfl⟩ := List.mem_map.mp hmem
    exact gfold_inv (fun m : RawMF => m.scheme) mfInit mfMerge
      (fun e => mfPosInv e.2) (fun a => mfInit_inv a)
      (fun k q a hq => mfMerge_inv a hq) p.mutualFunds [] (by simp) e he

/-- Witness for C2: the invariants hold on the concrete consolidated
portfolio with one merged stock key and one merged fund key, and those
output lists are nonempty (one position each). -/
theorem C2_position_invariants_witness :
    ((consolidatePortfolio exPortfolio).stocks).Forall stockPosInv
    ∧ ((consolidatePortfolio exPortfolio).mutualFunds).Forall mfPosInv
    ∧ (consolidatePortfolio exPortfolio).stocks.length = 1
    ∧ (consolidatePortfolio exPortfolio).mutualFunds.length = 1 := by
  refine ⟨?_, ?_, by decide, by decide⟩
  · exact List.forall_iff_forall_mem.mpr
      (fun pos h => C2_position_invariants.1 exPortfolio pos h)
  · exact List.forall_iff_forall_mem.mpr
      (fun pos h => C2_position_invariants.2.1 exPortfolio pos h)

/-- C2 counterexample: a single-holding position (quantity 1 at price 1,
raw `totalGain` 5, raw `gainPercent` 7) is emitted with
`gainPercent = 7` although `totalGain / investedAmount * 100 = 500`, so
the claim's gain-percent identity fails for the single-holding case. -/
theorem C2_counterexample :
    (consolidatePortfolio { stocks := [exStockRawGain], mutualFunds := [] }).stocks.map
        (fun pos => (pos.gainPercent, pos.totalGain, pos.investedAmount,
          JNum.jmul (JNum.jdiv pos.totalGain pos.investedAmount) (.fin 100)))
      = [(.fin 7, .fin 5, .fin 1, .fin 500)]
    ∧ JNum.fin 7 ≠ JNum.fin 500 := by
  refine ⟨by decide, by decide⟩

/-! ## Merge arithmetic (claim C3) -/

theorem jdiv_not_nan {ii : JNum} (hii : ii.isNaN = false) {qq : ℚ} (hq : qq ≠ 0) :
    (JNum.jdiv ii (.fin qq)).isNaN = false := by
  cases ii with
  | nan => simp [JNum.isNaN] at hii
  | inf =>
      by_cases h : qq < 0 <;> simp [JNum.jdiv, h, JNum.isNaN]
  | ninf =>
      by_cases h : qq < 0 <;> simp [JNum.jdiv, h, JNum.isNaN]
  | fin v => simp [JNum.jdiv, hq, JNum.isNaN]

/-- C3 (amended): the stock merge computes the new invested amount as
`existing.quantity * existing.costBasis + holding.quantity * holding.costBasis`
(recomputed from the stored average, not the stored invested amount),
while the fund merge computes it as
`existing.investedAmount + holding.investedAmount` (the holding's raw
invested-amount field, not `units * purchaseNAV`); in both variants the
new per-unit cost basis is `newInvested / newQuantity` when
`newQuantity > 0` and `0` otherwise.  When the existing position has a
positive finite quantity, a non-NaN invested amount and a cost basis
equal to `investedAmount / quantity`, the stock recomputation coincides
with the claim's `existing.investedAmount + quantity * costBasis`
formula. -/
theorem C3_merge_invested_amount :
    (∀ (pos : StockPos) (s : RawStock),
      (stockMerge pos s).investedAmount
        = JNum.jadd (JNum.jmul (renorm pos.quantity) (renorm pos.purchasePrice))
            (JNum.jmul (sfN0 s.quantity) (sfN0 s.purchasePrice))
      ∧ (stockMerge pos s).purchasePrice
        = (if JNum.jgt (stockMerge pos s).quantity (.fin 0)
           then JNum.jdiv (stockMerge pos s).investedAmount (stockMerge pos s).quantity
           else .fin 0))
    ∧ (∀ (pos : MFPos) (m : RawMF),
      (mfMerge pos m).investedAmount
        = JNum.jadd (renorm pos.investedAmount) (sfN0 m.investedAmount)
      ∧ (mfMerge pos m).purchaseNAV
        = (if JNum.jgt (mfMerge pos m).units (.fin 0)
           then JNum.jdiv (mfMerge pos m).investedAmount (mfMerge pos m).units
           else .fin 0))
    ∧ (∀ (pos : StockPos) (s : RawStock) (qq : ℚ),
        0 < qq → pos.quantity = .fin qq → pos.investedAmount.isNaN = false →
        pos.purchasePrice = JNum.jdiv pos.investedAmount pos.quantity →
        (stockMerge pos s).investedAmount
          = JNum.jadd pos.investedAmount
              (JNum.jmul (sfN0 s.quantity) (sfN0 s.purchasePrice))) := by
  refine ⟨fun pos s => ⟨rfl, rfl⟩, fun pos m => ⟨rfl, rfl⟩, ?_⟩
  intro pos s qq hq hquant hinv hcb
  have hdef : (stockMerge pos s).investedAmount
      = JNum.jadd (JNum.jmul (renorm pos.quantity) (renorm pos.purchasePrice))
          (JNum.jmul (sfN0 s.quantity) (sfN0 s.purchasePrice)) := rfl
  rw [hdef, hquant, renorm_fin, hcb, hquant]
  rw [renorm_not_nan (jdiv_not_nan hinv (ne_of_gt hq))]
  rw [jmul_fin_jdiv hq]

/-- Witness for C3: the coincidence clause applied to the consolidated
first occurrence of 10@100 merged with 5@120: the recomputed invested
amount equals the stored invested amount plus the new transaction's
cost. -/
theorem C3_merge_invested_amount_witness :
    (stockMerge (stockInit exStockA) exStockB).investedAmount
      = JNum.jadd (stockInit exStockA).investedAmount
          (JNum.jmul (sfN0 exStockB.quantity) (sfN0 exStockB.purchasePrice)) :=
  C3_merge_invested_amount.2.2 (stockInit exStockA) exStockB 10
    (by norm_num) (by decide) (by decide) (by decide)

/-- C3 counterexample: in the fund variant the code adds the incoming
holding's raw `investedAmount` field (50), not
`units * purchaseNAV = 1`, so the merged invested amount is 150 while
the claim's formula `existing.investedAmount + units * purchaseNAV`
gives 101. -/
theorem C3_counterexample :
    (consolidateMFs [exMFA]).map (fun e => e.2.investedAmount) = [.fin 100]
    ∧ (consolidateMFs [exMFA, exMFB]).map (fun e => e.2.investedAmount) = [.fin 150]
    ∧ JNum.jadd (.fin 100) (JNum.jmul (sfN0 exMFB.units) (sfN0 exMFB.purchaseNAV)) = .fin 101
    ∧ JNum.fin 150 ≠ JNum.fin 101 := by
  refine ⟨by decide, by decide, by decide, by decide⟩

/-! ## Reconciliation isolation (claim C1) -/

theorem mapIdxFrom_getq {A B : Type} (f : ℕ → A → B) :
    ∀ (l : List A) (n j : ℕ), (mapIdxFrom f n l).get? j = (l.get? j).map (f (n + j)) := by
  intro l
  induction l with
  | nil => intro n j; simp [mapIdxFrom]
  | cons a t ih =>
      intro n j
      cases j with
      | zero => simp [mapIdxFrom]
      | succ j' =>
          show (mapIdxFrom f (n + 1) t).get? j' = (t.get? j').map (f (n + (j' + 1)))
          rw [ih (n + 1) j']
          rw [show n + 1 + j' = n + (j' + 1) from by omega]

/-- A throw, a malformed response or a non-positive price leaves a
symbol-carrying stock holding with only `priceError` set. -/
theorem refreshStockOne_fail {today : String} {o : QuoteOutcome} {s : RawStock}
    (hs : s.symbol.isEmpty = false)
    (h : o = .throws ∨ o = .malformed ∨ ∃ q : ℚ, o = .quote (.fin q) ∧ q ≤ 0) :
    refreshStockOne today o s = { s with priceError := some true } := by
  rcases h with h | h | ⟨q, h, hq⟩ <;> subst h
  · simp [refreshStockOne, hs]
  · simp [refreshStockOne, hs]
  · have : ¬ (0 < q) := not_lt.mpr hq
    simp [refreshStockOne, hs, JNum.truthy, JNum.jgt, this]

/-- `mfResolve` only ever rewrites the holding's `schemeCode`. -/
theorem mfResolve_snd (mf : RawMF) (o : SearchOutcome) :
    ∃ sc : Option String, (mfResolve mf o).2 = { mf with schemeCode := sc } := by
  have heta : ∀ sc : Option String, mf.schemeCode = sc →
      ({ mf with schemeCode := sc } : RawMF) = mf := by
    intro sc h
    rw [← h]
  cases hc : mf.schemeCode with
  | some c =>
      by_cases hce : c.isEmpty
      · cases hs : searchSchemeCode mf.scheme o with
        | some c' =>
            refine ⟨some c', ?_⟩
            simp [mfResolve, hc, hce, hs]
        | none =>
            refine ⟨some c, ?_⟩
            rw [heta (some c) hc]
            simp [mfResolve, hc, hce, hs]
      · refine ⟨some c, ?_⟩
        rw [heta (some c) hc]
        simp [mfResolve, hc, hce]
  | none =>
      cases hs : searchSchemeCode mf.scheme o with
      | some c' =>
          refine ⟨some c', ?_⟩
          simp [mfResolve, hc, hs]
      | none =>
          refine ⟨none, ?_⟩
          rw [heta none hc]
          simp [mfResolve, hc, hs]

/-- Any fund-side failure — no resolvable scheme code, a thrown or
malformed NAV request, an empty history, or a non-positive NAV — leaves
the holding with only `navError` set (plus, possibly, a freshly cached
`schemeCode`). -/
theorem refreshMFOne_fail {o : FundOutcome} {mf : RawMF}
    (hs : mf.scheme.isEmpty = false)
    (h : (mfResolve mf o.search).1 = none
      ∨ o.fetch = .throws ∨ o.fetch = .malformed ∨ o.fetch = .navs []
      ∨ (∃ e rest q, o.fetch = .navs (e :: rest) ∧ parseFloatVal e.nav = .fin q ∧ q ≤ 0)) :
    ∃ sc : Option String,
      refreshMFOne o mf = { mf with schemeCode := sc, navError := some true } := by
  obtain ⟨sc, hsc⟩ := mfResolve_snd mf o.search
  refine ⟨sc, ?_⟩
  rcases h with h | h | h | h | ⟨e, rest, q, h, hnav, hq⟩
  · simp [refreshMFOne, hs, h, hsc]
  · cases hr : (mfResolve mf o.search).1 with
    | none => simp [refreshMFOne, hs, hr, hsc]
    | some c => simp [refreshMFOne, hs, hr, h, hsc]
  · cases hr : (mfResolve mf o.search).1 with
    | none => simp [refreshMFOne, hs, hr, hsc]
    | some c => simp [refreshMFOne, hs, hr, h, hsc]
  · cases hr : (mfResolve mf o.search).1 with
    | none => simp [refreshMFOne, hs, hr, hsc]
    | some c => simp [refreshMFOne, hs, hr, h, hsc]
  · cases hr : (mfResolve mf o.search).1 with
    | none => simp [refreshMFOne, hs, hr, hsc]
    | some c =>
        have hlt : ¬ (0 < q) := not_lt.mpr hq
        simp [refreshMFOne, hs, hr, h, hnav, JNum.truthy, JNum.jgt, hlt, hsc]

/-- C1: during one reconciliation pass, every stock holding whose price
lookup fails — by a thrown request, a malformed response structure, or
a non-positive price — is left exactly as it was except for
`priceError = true` (so `currentPrice`, `change`, `changePercent`,
`totalValue`, `totalGain`, `gainPercent` keep their prior values), and
every other holding is still processed normally; the analogous property
holds for fund holdings with `navError` (where a freshly cached
`schemeCode` is the only other field that may change) and a
non-positive NAV. -/
theorem C1_refresh_isolation :
    (∀ (today : String) (env : ℕ → QuoteOutcome) (stocks : List RawStock) (i : ℕ) (s : RawStock),
      stocks.get? i = some s → s.symbol.isEmpty = false →
      (env i = .throws ∨ env i = .malformed ∨ ∃ q : ℚ, env i = .quote (.fin q) ∧ q ≤ 0) →
      (refreshStocks today env stocks).get? i = some { s with priceError := some true }
      ∧ ∀ j, (refreshStocks today env stocks).get? j
          = (stocks.get? j).map (fun t => refreshStockOne today (env j) t))
    ∧ (∀ (env : ℕ → FundOutcome) (mfs : List RawMF) (i : ℕ) (mf : RawMF),
      mfs.get? i = some mf → mf.scheme.isEmpty = false →
      ((mfResolve mf (env i).search).1 = none
        ∨ (env i).fetch = .throws ∨ (env i).fetch = .malformed ∨ (env i).fetch = .navs []
        ∨ (∃ e rest q, (env i).fetch = .navs (e :: rest)
            ∧ parseFloatVal e.nav = .fin q ∧ q ≤ 0)) →
      (∃ sc : Option String, (refreshMFs env mfs).get? i
          = some { mf with schemeCode := sc, navError := some true })
      ∧ ∀ j, (refreshMFs env mfs).get? j
          = (mfs.get? j).map (fun t => refreshMFOne (env j) t)) := by
  constructor
  · intro today env stocks i s hi hsym hfail
    have hall : ∀ j, (refreshStocks today env stocks).get? j
        = (stocks.get? j).map (fun t => refreshStockOne today (env j) t) := by
      intro j
      have := mapIdxFrom_getq (fun i s => refreshStockOne today (env i) s) stocks 0 j
      simpa [refreshStocks] using this
    refine ⟨?_, hall⟩
    rw [hall i, hi]
    show some (refreshStockOne today (env i) s) = _
    rw [refreshStockOne_fail hsym hfail]
  · intro env mfs i mf hi hsym hfail
    have hall : ∀ j, (refreshMFs env mfs).get? j
        = (mfs.get? j).map (fun t => refreshMFOne (env j) t) := by
      intro j
      have := mapIdxFrom_getq (fun i m => refreshMFOne (env i) m) mfs 0 j
      simpa [refreshMFs] using this
    obtain ⟨sc, hsc⟩ := refreshMFOne_fail hsym hfail
    refine ⟨⟨sc, ?_⟩, hall⟩
    rw [hall i, hi]
    simp [hsc]

/-- Witness for C1: in a three-stock portfolio where exactly the second
request throws, the second holding comes back with only
`priceError = true`, and a fund whose available NAV parses to 0 gets
`navError = true` with everything but `schemeCode` untouched. -/
theorem C1_refresh_isolation_witness :
    (refreshStocks "2024-01-01" exEnvSecondThrows exStocksThree).get? 1
      = some { exStockKey "2" "B" with priceError := some true }
    ∧ ∃ sc : Option String, (refreshMFs exEnvNavZero [exMFA]).get? 0
        = some { exMFA with schemeCode := sc, navError := some true } := by
  constructor
  · exact (C1_refresh_isolation.1 "2024-01-01" exEnvSecondThrows exStocksThree 1
      (exStockKey "2" "B") (by decide) (by decide) (Or.inl (by decide))).1
  · exact (C1_refresh_isolation.2 exEnvNavZero [exMFA] 0 exMFA (by decide) (by decide)
      (Or.inr (Or.inr (Or.inr (Or.inr ⟨{ nav := .str "0", date := "01-01-2024" }, [], 0,
        by decide, by decide, le_refl 0⟩))))).1

/-! ## Refresh epilogue (claim C7) -/

/-- C7: after both loops have processed every holding — regardless of
the outcomes of the individual lookups, including every one of them
failing — the handler stamps `portfolio.lastUpdated` with the current
time and answers the constant request-level success message; the only
env-dependent data are the refreshed per-holding records themselves
(with their per-item error flags). -/
theorem C7_refresh_always_succeeds :
    ∀ (now today : String) (envS : ℕ → QuoteOutcome) (envF : ℕ → FundOutcome) (p : Portfolio),
      (refreshPortfolioHandler now today envS envF p).2 = .ok "Portfolio refreshed successfully"
      ∧ (refreshPortfolioHandler now today envS envF p).1.lastUpdated = some now
      ∧ (refreshPortfolioHandler now today envS envF p).1.stocks = refreshStocks today envS p.stocks
      ∧ (refreshPortfolioHandler now today envS envF p).1.mutualFunds = refreshMFs envF p.mutualFunds :=
  fun _ _ _ _ _ => ⟨rfl, rfl, rfl, rfl⟩

/-! ## Rounding boundary (claim C8) -/

/-- C8 counterexample: a successful reconciliation of a stock bought at
3 with quoted price 4 stores `changePercent = 33.33` (the `toFixed(2)`
value) into the aggregate, not the full-precision 100/3 — so rounding
is not confined to a presentation boundary. -/
theorem C8_counterexample :
    (refreshStockOne "2024-01-01" (.quote (.fin 4)) exStockBasis3).changePercent
      = .num (.fin (3333/100))
    ∧ JNum.jmul (JNum.jdiv (JNum.jsub (JNum.jToFixed2 (.fin 4)) (.fin 3)) (.fin 3)) (.fin 100)
      = .fin (100/3)
    ∧ (3333/100 : ℚ) ≠ 100/3 := by
  refine ⟨by decide, by decide, by decide⟩

/-- C8 (amended): consolidation stores percentages at full precision —
a merged position's `gainPercent` is exactly
`totalGain / investedAmount * 100` whenever `investedAmount > 0`, with
no rounding anywhere in `consolidatePortfolio` — but a successful
reconciliation rounds the stored `currentPrice`, `changePercent` and
`gainPercent` to 2 decimal places (`toFixed(2)`) before writing them
into the aggregate. -/
theorem C8_rounding_amended :
    (∀ (pos : StockPos) (s : RawStock),
      JNum.jgt (stockMerge pos s).investedAmount (.fin 0) = true →
      (stockMerge pos s).gainPercent
        = JNum.jmul (JNum.jdiv (stockMerge pos s).totalGain (stockMerge pos s).investedAmount)
            (.fin 100))
    ∧ (∀ (pos : MFPos) (m : RawMF),
      JNum.jgt (mfMerge pos m).investedAmount (.fin 0) = true →
      (mfMerge pos m).gainPercent
        = JNum.jmul (JNum.jdiv (mfMerge pos m).totalGain (mfMerge pos m).investedAmount)
            (.fin 100))
    ∧ (∀ (today : String) (s : RawStock) (q : ℚ), 0 < q → s.symbol.isEmpty = false →
      (refreshStockOne today (.quote (.fin q)) s).currentPrice
          = .num (JNum.jToFixed2 (.fin q))
      ∧ (refreshStockOne today (.quote (.fin q)) s).changePercent
          = .num (JNum.jToFixed2 (JNum.jmul
              (JNum.jdiv (JNum.jsub (JNum.jToFixed2 (.fin q)) (toNumber s.purchasePrice))
                (toNumber s.purchasePrice)) (.fin 100)))
      ∧ (refreshStockOne today (.quote (.fin q)) s).gainPercent
          = .num (JNum.jToFixed2 (JNum.jmul
              (JNum.jdiv
                (JNum.jsub (JNum.jmul (toNumber s.quantity) (JNum.jToFixed2 (.fin q)))
                  (JNum.jmul (toNumber s.quantity) (toNumber s.purchasePrice)))
                (JNum.jmul (toNumber s.quantity) (toNumber s.purchasePrice)))
              (.fin 100)))) := by
  refine ⟨?_, ?_, ?_⟩
  · intro pos s h
    have hdef : (stockMerge pos s).gainPercent
        = (if JNum.jgt (stockMerge pos s).investedAmount (.fin 0)
           then JNum.jmul
             (JNum.jdiv (stockMerge pos s).totalGain (stockMerge pos s).investedAmount) (.fin 100)
           else .fin 0) := rfl
    rw [hdef]
    simp [h]
  · intro pos m h
    have hdef : (mfMerge pos m).gainPercent
        = (if JNum.jgt (mfMerge pos m).investedAmount (.fin 0)
           then JNum.jmul
             (JNum.jdiv (mfMerge pos m).totalGain (mfMerge pos m).investedAmount) (.fin 100)
           else .fin 0) := rfl
    rw [hdef]
    simp [h]
  · intro today s q hq hs
    have hne : q ≠ 0 := ne_of_gt hq
    refine ⟨?_, ?_, ?_⟩ <;>
      simp [refreshStockOne, hs, JNum.truthy, JNum.jgt, hq, hne]

/-- Witness for C8: the merged 10@100 + 5@120 position keeps the exact
gain percent 50/1600*100 = 25/8, and the concrete refresh at basis 3
and price 4 stores the rounded values. -/
theorem C8_rounding_amended_witness :
    (stockMerge (stockInit exStockA) exStockB).gainPercent
      = JNum.jmul (JNum.jdiv (stockMerge (stockInit exStockA) exStockB).totalGain
          (stockMerge (stockInit exStockA) exStockB).investedAmount) (.fin 100)
    ∧ (refreshStockOne "2024-01-01" (.quote (.fin 4)) exStockBasis3).currentPrice
        = .num (JNum.jToFixed2 (.fin 4)) := by
  constructor
  · exact C8_rounding_amended.1 (stockInit exStockA) exStockB (by decide)
  · exact (C8_rounding_amended.2.2 "2024-01-01" exStockBasis3 4 (by norm_num) (by decide)).1

/-! ## Not-found behaviour of the CRUD endpoints (claim C9) -/

/-- C9 (amended): the four stock and mutual-fund update/delete
endpoints answer a distinct 404 not-found result and leave the
persisted aggregate untouched whenever the target id is absent; the
combined `DELETE /api/portfolio/transaction/:id`, however, performs no
not-found check and answers success even then — though the aggregate
content it writes is unchanged, since filtering an absent id removes
nothing. -/
theorem C9_not_found_amended :
    ∀ (id : String) (b : StockUpdateBody) (bm : MFUpdateBody) (fetched : Option String)
      (p : Portfolio),
      (∀ s ∈ p.stocks, s.id ≠ id) → (∀ m ∈ p.mutualFunds, m.id ≠ id) →
      updateStockTransaction id b fetched p = (p, .err 404 "Stock transaction not found")
      ∧ deleteStockTransaction id p = (p, .err 404 "Stock transaction not found")
      ∧ updateMFTransaction id bm p = (p, .err 404 "Mutual fund transaction not found")
      ∧ deleteMFTransaction id p = (p, .err 404 "Mutual fund transaction not found")
      ∧ deletePortfolioTransaction id p = (p, .ok "Transaction deleted successfully") := by
  intro id b bm fetched p hstock hmf
  have hsa : p.stocks.any (fun s => s.id = id) = false := by
    rw [List.any_eq_false]
    intro s hs
    simpa using hstock s hs
  have hma : p.mutualFunds.any (fun m => m.id = id) = false := by
    rw [List.any_eq_false]
    intro m hm
    simpa using hmf m hm
  have hsf : p.stocks.filter (fun s => s.id ≠ id) = p.stocks := by
    rw [List.filter_eq_self]
    intro s hs
    simpa using hstock s hs
  have hmff : p.mutualFunds.filter (fun m => m.id ≠ id) = p.mutualFunds := by
    rw [List.filter_eq_self]
    intro m hm
    simpa using hmf m hm
  refine ⟨?_, ?_, ?_, ?_, ?_⟩
  · simp [updateStockTransaction, hsa]
  · simp [deleteStockTransaction, hsa]
  · simp [updateMFTransaction, hma]
  · simp [deleteMFTransaction, hma]
  · simp only [deletePortfolioTransaction]
    rw [hsf, hmff]

/-- Witness for C9: on the concrete portfolio whose only ids are "1",
deleting the absent id "9" through the stock endpoint answers 404 with
the aggregate unchanged. -/
theorem C9_not_found_amended_witness :
    deleteStockTransaction "9" exP9 = (exP9, .err 404 "Stock transaction not found")
    ∧ deletePortfolioTransaction "9" exP9 = (exP9, .ok "Transaction deleted successfully") := by
  have h := C9_not_found_amended "9" {} {} none exP9 (by decide) (by decide)
  exact ⟨h.2.1, h.2.2.2.2⟩

/-- C9 counterexample: id "9" is absent from the concrete portfolio,
yet `DELETE /api/portfolio/transaction/9` answers the plain success
message — not a distinct "not found" result — so the claim fails for
this delete operation. -/
theorem C9_counterexample :
    exP9.stocks.all (fun s => s.id ≠ "9") = true
    ∧ exP9.mutualFunds.all (fun m => m.id ≠ "9") = true
    ∧ deletePortfolioTransaction "9" exP9 = (exP9, .ok "Transaction deleted successfully")
    ∧ (∀ st msg, ApiResult.ok "Transaction deleted successfully" ≠ .err st msg) := by
  refine ⟨by decide, by decide, by decide, fun st msg h => ApiResult.noConfusion h⟩

/-! ## Frame property of consolidation (claim C10) -/

theorem writeAt_length {A : Type} : ∀ (l : List A) (n : ℕ) (a : A),
    (writeAt l n a).length = l.length := by
  intro l
  induction l with
  | nil => intro n a; rfl
  | cons x t ih =>
      intro n a
      cases n with
      | zero => rfl
      | succ n' => simp [writeAt, ih]

theorem getq_writeAt_ne {A : Type} : ∀ (l : List A) (n : ℕ) (a : A) (j : ℕ), j ≠ n →
    (writeAt l n a).get? j = l.get? j := by
  intro l
  induction l with
  | nil => intro n a j h; rfl
  | cons x t ih =>
      intro n a j h
      cases n with
      | zero =>
          cases j with
          | zero => exact absurd rfl h
          | succ j' => rfl
      | succ n' =>
          cases j with
          | zero => rfl
          | succ j' =>
              show (writeAt t n' a).get? j' = t.get? j'
              exact ih n' a j' (fun hh => h (by rw [hh]))

theorem getq_append_lt {A : Type} : ∀ (l l' : List A) (j : ℕ), j < l.length →
    (l ++ l').get? j = l.get? j := by
  intro l
  induction l with
  | nil => intro l' j h; simp at h
  | cons x t ih =>
      intro l' j h
      cases j with
      | zero => rfl
      | succ j' => exact ih l' j' (by simpa using h)

/-- Folding any step that preserves `HInv` and the heap below the
allocation bound preserves both across the whole list. -/
theorem foldH_frame {σ : Type} (n0 : ℕ)
    (step : Heap × List (String × ℕ) → σ → Heap × List (String × ℕ))
    (hstep : ∀ st a, HInv n0 st →
      HInv n0 (step st a) ∧ ∀ j, j < n0 → (step st a).1.get? j = st.1.get? j) :
    ∀ (l : List σ) (st : Heap × List (String × ℕ)), HInv n0 st →
      HInv n0 (l.foldl step st) ∧ ∀ j, j < n0 → (l.foldl step st).1.get? j = st.1.get? j := by
  intro l
  induction l with
  | nil => intro st h; exact ⟨h, fun j _ => rfl⟩
  | cons a t ih =>
      intro st h
      obtain ⟨h1, h2⟩ := hstep st a h
      obtain ⟨h3, h4⟩ := ih (step st a) h1
      exact ⟨h3, fun j hj => (h4 j hj).trans (h2 j hj)⟩

/-- One stock iteration writes only at a map address (all of which are
at or above the allocation bound) or allocates at the end, so the heap
below the bound — in particular every input object — is untouched. -/
theorem stockStepH_frame (n0 : ℕ) (st : Heap × List (String × ℕ)) (a : ℕ) (h : HInv n0 st) :
    HInv n0 (stockStepH st a) ∧ ∀ j, j < n0 → (stockStepH st a).1.get? j = st.1.get? j := by
  obtain ⟨hlen, hmem⟩ := h
  have triv : HInv n0 st ∧ ∀ j, j < n0 → st.1.get? j = st.1.get? j :=
    ⟨⟨hlen, hmem⟩, fun _ _ => rfl⟩
  cases hga : st.1.get? a with
  | none => simpa only [stockStepH, hga] using triv
  | some obj =>
      cases obj with
      | stockRaw s =>
          cases hlk : lookupKV st.2 s.symbol with
          | some addr =>
              have haddr := hmem _ (lookupKV_mem hlk)
              cases hgaddr : st.1.get? addr with
              | some obj' =>
                  cases obj' with
                  | stockPos p =>
                      simp only [stockStepH, hga, hlk, hgaddr]
                      refine ⟨⟨?_, ?_⟩, ?_⟩
                      · rw [writeAt_length]; exact hlen
                      · intro e he
                        rw [writeAt_length]
                        exact hmem e he
                      · intro j hj
                        refine getq_writeAt_ne st.1 addr _ j ?_
                        intro hh
                        rw [hh] at hj
                        exact absurd haddr.1 (by omega)
                  | stockRaw s' => simpa only [stockStepH, hga, hlk, hgaddr] using triv
                  | mfRaw m => simpa only [stockStepH, hga, hlk, hgaddr] using triv
                  | mfPos p => simpa only [stockStepH, hga, hlk, hgaddr] using triv
              | none => simpa only [stockStepH, hga, hlk, hgaddr] using triv
          | none =>
              simp only [stockStepH, hga, hlk]
              refine ⟨⟨?_, ?_⟩, ?_⟩
              · simp only [List.length_append, List.length_cons, List.length_nil]
                omega
              · intro e he
                rcases List.mem_append.mp he with he | he
                · obtain ⟨he1, he2⟩ := hmem e he
                  refine ⟨he1, ?_⟩
                  simp only [List.length_append, List.length_cons, List.length_nil]
                  omega
                · simp only [List.mem_singleton] at he
                  subst he
                  refine ⟨hlen, ?_⟩
                  simp only [List.length_append, List.length_cons, List.length_nil]
                  omega
              · intro j hj
                exact getq_append_lt _ _ j (lt_of_lt_of_le hj hlen)
      | stockPos p => simpa only [stockStepH, hga] using triv
      | mfRaw m => simpa only [stockStepH, hga] using triv
      | mfPos p => simpa only [stockStepH, hga] using triv

/-- One fund iteration likewise leaves the heap below the allocation
bound untouched. -/
theorem mfStepH_frame (n0 : ℕ) (st : Heap × List (String × ℕ)) (a : ℕ) (h : HInv n0 st) :
    HInv n0 (mfStepH st a) ∧ ∀ j, j < n0 → (mfStepH st a).1.get? j = st.1.get? j := by
  obtain ⟨hlen, hmem⟩ := h
  have triv : HInv n0 st ∧ ∀ j, j < n0 → st.1.get? j = st.1.get? j :=
    ⟨⟨hlen, hmem⟩, fun _ _ => rfl⟩
  cases hga : st.1.get? a with
  | none => simpa only [mfStepH, hga] using triv
  | some obj =>
      cases obj with
      | mfRaw m =>
          cases hlk : lookupKV st.2 m.scheme with
          | some addr =>
              have haddr := hmem _ (lookupKV_mem hlk)
              cases hgaddr : st.1.get? addr with
              | some obj' =>
                  cases obj' with
                  | mfPos p =>
                      simp only [mfStepH, hga, hlk, hgaddr]
                      refine ⟨⟨?_, ?_⟩, ?_⟩
                      · rw [writeAt_length]; exact hlen
                      · intro e he
                        rw [writeAt_length]
                        exact hmem e he
                      · intro j hj
                        refine getq_writeAt_ne st.1 addr _ j ?_
                        intro hh
                        rw [hh] at hj
                        exact absurd haddr.1 (by omega)
                  | stockRaw s' => simpa only [mfStepH, hga, hlk, hgaddr] using triv
                  | stockPos p => simpa only [mfStepH, hga, hlk, hgaddr] using triv
                  | mfRaw m' => simpa only [mfStepH, hga, hlk, hgaddr] using triv
              | none => simpa only [mfStepH, hga, hlk, hgaddr] using triv
          | none =>
              simp only [mfStepH, hga, hlk]
              refine ⟨⟨?_, ?_⟩, ?_⟩
              · simp only [List.length_append, List.length_cons, List.length_nil]
                omega
              · intro e he
                rcases List.mem_append.mp he with he | he
                · obtain ⟨he1, he2⟩ := hmem e he
                  refine ⟨he1, ?_⟩
                  simp only [List.length_append, List.length_cons, List.length_nil]
                  omega
                · simp only [List.mem_singleton] at he
                  subst he
                  refine ⟨hlen, ?_⟩
                  simp only [List.length_append, List.length_cons, List.length_nil]
                  omega
              · intro j hj
                exact getq_append_lt _ _ j (lt_of_lt_of_le hj hlen)
      | stockRaw s => simpa only [mfStepH, hga] using triv
      | stockPos p => simpa only [mfStepH, hga] using triv
      | mfPos p => simpa only [mfStepH, hga] using triv

/-- C10: the address-level consolidation never mutates its input — the
first-occurrence branch allocates the spread copy as a fresh object and
every merge writes only at a map address, all of which are freshly
allocated — so after the call every pre-existing heap object (every
input stock and mutual-fund record in particular) is unchanged field
for field. -/
theorem C10_no_input_mutation :
    ∀ (h : Heap) (stockAddrs mfAddrs : List ℕ) (j : ℕ), j < h.length →
      (consolidateH h stockAddrs mfAddrs).1.get? j = h.get? j := by
  intro h sa ma j hj
  have h0 : HInv h.length (h, ([] : List (String × ℕ))) := ⟨le_refl _, by simp⟩
  obtain ⟨h1, h2⟩ := foldH_frame h.length stockStepH
    (fun st a hst => stockStepH_frame h.length st a hst) sa (h, []) h0
  have h0' : HInv h.length ((sa.foldl stockStepH (h, [])).1, ([] : List (String × ℕ))) :=
    ⟨h1.1, by simp⟩
  obtain ⟨h3, h4⟩ := foldH_frame h.length mfStepH
    (fun st a hst => mfStepH_frame h.length st a hst) ma _ h0'
  show (ma.foldl mfStepH ((sa.foldl stockStepH (h, [])).1, [])).1.get? j = h.get? j
  exact (h4 j hj).trans (h2 j hj)

/-- Witness for C10: consolidating the two-object heap holding the raw
10@100 and 5@120 records leaves both input records in place, although
the run allocated and merged a position for their shared symbol. -/
theorem C10_no_input_mutation_witness :
    (consolidateH exHeap [0, 1] []).1.get? 0 = exHeap.get? 0
    ∧ (consolidateH exHeap [0, 1] []).1.get? 1 = exHeap.get? 1
    ∧ (consolidateH exHeap [0, 1] []).1.length = 3 := by
  refine ⟨C10_no_input_mutation exHeap [0, 1] [] 0 (by decide),
          C10_no_input_mutation exHeap [0, 1] [] 1 (by decide), by decide⟩

end Invest
